import Mathlib

/-!
Shallow embedding of `contracts/distribution/dao-rewards-distributor/src/contract.rs`
(the single-distribution staking-rewards contract) together with proofs about the
claims of the natural-language specification.

Modelling conventions:
* `Uint128` / `Uint256` / `u64` values are `ℕ`; the contract's checked arithmetic
  (`checked_mul`, `checked_sub`, `checked_div`, `try_into`, and the panicking
  `+`/`-` operators, which abort the transaction under `overflow-checks = true`)
  is modelled with explicit bound checks in the `Except StdErr` monad, so an
  arithmetic abort is an error value and never a wrap-around.
* Storage items (`CONFIG`, `REWARD_CONFIG`, `LAST_UPDATE_BLOCK`, `REWARD_PER_TOKEN`,
  `USER_REWARD_PER_TOKEN`, `PENDING_REWARDS`, the cw-ownable owner) live in one
  record `ContractState`.  Items that the source only ever reads through
  `unwrap_or_default()` are stored as plain values defaulting to `0`;
  `PENDING_REWARDS` keeps its `Option` because `execute_claim` distinguishes a
  missing entry.
* The voting-power oracle (`TotalPowerAtHeight` / `VotingPowerAtHeight` queries,
  both issued with `height: None`, i.e. "now") is a value `VP` supplied by the
  environment of each call.
* Addresses are natural numbers.  The host guarantees transaction atomicity, so
  an operation that returns an error leaves storage untouched; in the embedding
  an error simply carries no successor state.
-/

abbrev Addr := Nat

/-- Bound of the `Uint128` type. -/
def uint128Bound : Nat := 2 ^ 128

/-- Bound of the `Uint256` type. -/
def uint256Bound : Nat := 2 ^ 256

/-- Bound of the `u64` type. -/
def uint64Bound : Nat := 2 ^ 64

/-- `scale_factor()` from the source: `Uint256::from(10u8).pow(39)`. -/
def scaleFactor : Nat := 10 ^ 39

/-- Arithmetic aborts (`StdError` results and panics of unchecked operators). -/
inductive StdErr where
  | overflow
  | underflow
  | divideByZero
  | conversionOverflow
  deriving Repr, DecidableEq

/-- `ContractError` of the contract (plus arithmetic aborts wrapped as `std`). -/
inductive ContractError where
  | std (e : StdErr)
  | ownershipNoOwner
  | ownershipNotOwner
  | invalidCw20
  | invalidFunds
  | noRewardsClaimable
  | rewardPeriodNotFinished
  | rewardRateLessThenOnePerBlock
  | zeroRewardDuration
  | invalidHookSender
  deriving Repr, DecidableEq

/-- `cw20::Denom`. -/
inductive Denom where
  | native (denom : String)
  | cw20 (addr : Addr)
  deriving Repr, DecidableEq

/-- The `Config` storage item. -/
structure Config where
  vpContract : Addr
  hookCaller : Option Addr
  rewardToken : Denom
  deriving Repr, DecidableEq

/-- The `RewardConfig` storage item. -/
structure RewardConfig where
  periodFinish : Nat
  rewardRate : Nat
  rewardDuration : Nat
  deriving Repr, DecidableEq

/-- All storage of the contract. -/
@[ext]
structure ContractState where
  config : Config
  owner : Option Addr
  rewardConfig : RewardConfig
  lastUpdateBlock : Nat
  rewardPerToken : Nat
  userRewardPerToken : Addr → Nat
  pendingRewards : Addr → Option Nat

/-- The voting-power oracle's answers at the current block. -/
structure VP where
  total : Nat
  power : Addr → Nat

/-- A native coin attached to a message. -/
structure Coin where
  denom : String
  amount : Nat
  deriving Repr, DecidableEq

/-- `MessageInfo`: sender plus attached native funds. -/
structure MessageInfo where
  sender : Addr
  funds : List Coin
  deriving Repr, DecidableEq

/-- Messages the contract can emit (`BankMsg::Send` / cw20 `Transfer`). -/
inductive CosmosMsg where
  | bankSend (toAddress : Addr) (amount : Nat) (denom : String)
  | cw20Transfer (contractAddr : Addr) (recipient : Addr) (amount : Nat)
  deriving Repr, DecidableEq

/-- Panicking `u64` subtraction (aborts on underflow). -/
def checkedSubU64 (a b : Nat) : Except StdErr Nat :=
  if b ≤ a then pure (a - b) else throw .underflow

/-- `Uint256::checked_sub`. -/
def checkedSub256 (a b : Nat) : Except StdErr Nat :=
  if b ≤ a then pure (a - b) else throw .underflow

/-- `Uint256::checked_mul`. -/
def checkedMul256 (a b : Nat) : Except StdErr Nat :=
  if a * b < uint256Bound then pure (a * b) else throw .overflow

/-- `Uint256::checked_div`. -/
def checkedDiv256 (a b : Nat) : Except StdErr Nat :=
  if b = 0 then throw .divideByZero else pure (a / b)

/-- Panicking `Uint256` addition. -/
def checkedAdd256 (a b : Nat) : Except StdErr Nat :=
  if a + b < uint256Bound then pure (a + b) else throw .overflow

/-- Panicking `Uint128` addition. -/
def checkedAdd128 (a b : Nat) : Except StdErr Nat :=
  if a + b < uint128Bound then pure (a + b) else throw .overflow

/-- `Uint256 -> Uint128` conversion via `try_into`. -/
def tryIntoU128 (a : Nat) : Except StdErr Nat :=
  if a < uint128Bound then pure a else throw .conversionOverflow

/-- `get_last_time_reward_applicable`: `min(env.block.height, period_finish)`. -/
def getLastTimeRewardApplicable (rc : RewardConfig) (height : Nat) : Nat :=
  min height rc.periodFinish

/-- `get_reward_per_token`.  If total staked power is zero the additional
per-token reward is zero; otherwise it is
`reward_rate * (last_time_reward_applicable - last_update_block) * scale_factor
 / total_staked` (the subtraction is the unchecked `u64` one, the
multiplication by the scale factor is checked, the division is `checked_div`). -/
def getRewardPerToken (cs : ContractState) (height totalStaked : Nat) :
    Except StdErr Nat :=
  (if totalStaked = 0 then
    pure 0
  else do
    let elapsed ← checkedSubU64 (getLastTimeRewardApplicable cs.rewardConfig height)
      cs.lastUpdateBlock
    let numerator ← checkedMul256 (cs.rewardConfig.rewardRate * elapsed) scaleFactor
    checkedDiv256 numerator totalStaked) >>= fun additional =>
  checkedAdd256 cs.rewardPerToken additional

/-- `get_rewards_earned`:
`staked_balance * (reward_per_token - user_reward_per_token) / scale_factor`,
converted back to `Uint128`. -/
def getRewardsEarned (cs : ContractState) (addr : Addr) (rewardPerToken power : Nat) :
    Except StdErr Nat := do
  let rewardFactor ← checkedSub256 rewardPerToken (cs.userRewardPerToken addr)
  let prod ← checkedMul256 power rewardFactor
  let earned ← checkedDiv256 prod scaleFactor
  tryIntoU128 earned

/-- `update_rewards`: recompute and persist the global accumulator, bank the
caller's newly earned amount into `PENDING_REWARDS`, record the caller's
last-observed accumulator value, and advance `LAST_UPDATE_BLOCK` to
`min(height, period_finish)`. -/
def updateRewards (cs : ContractState) (height : Nat) (vp : VP) (addr : Addr) :
    Except StdErr ContractState := do
  let rewardPerToken ← getRewardPerToken cs height vp.total
  let earned ← getRewardsEarned cs addr rewardPerToken (vp.power addr)
  let newPending ← checkedAdd128 ((cs.pendingRewards addr).getD 0) earned
  pure { cs with
    rewardPerToken := rewardPerToken
    pendingRewards := Function.update cs.pendingRewards addr (some newPending)
    userRewardPerToken := Function.update cs.userRewardPerToken addr rewardPerToken
    lastUpdateBlock := getLastTimeRewardApplicable cs.rewardConfig height }

/-- `cw_ownable::assert_owner`. -/
def assertOwner (cs : ContractState) (sender : Addr) : Except ContractError Unit :=
  match cs.owner with
  | none => throw .ownershipNoOwner
  | some o => if sender = o then pure () else throw .ownershipNotOwner

/-- `get_transfer_msg`. -/
def getTransferMsg (recipient : Addr) (amount : Nat) (denom : Denom) : CosmosMsg :=
  match denom with
  | .native d => .bankSend recipient amount d
  | .cw20 a => .cw20Transfer a recipient amount

/-- `execute_fund`: owner-only; reconciles the sender, requires the previous
period to be over, sets the new rate to `amount / reward_duration` (rejected if
zero), the new `period_finish` to `height + reward_duration`, and
`LAST_UPDATE_BLOCK` to the current height. -/
def executeFund (cs : ContractState) (height : Nat) (vp : VP)
    (sender : Addr) (amount : Nat) : Except ContractError ContractState :=
  assertOwner cs sender >>= fun _ =>
  (updateRewards cs height vp sender).mapError ContractError.std >>= fun cs₁ =>
  if height < cs₁.rewardConfig.periodFinish then
    throw .rewardPeriodNotFinished
  else if uint64Bound ≤ height + cs₁.rewardConfig.rewardDuration then
    throw (.std .overflow)
  else if cs₁.rewardConfig.rewardDuration = 0 then
    throw (.std .divideByZero)
  else if amount / cs₁.rewardConfig.rewardDuration = 0 then
    throw .rewardRateLessThenOnePerBlock
  else
    pure { cs₁ with
      rewardConfig := ⟨height + cs₁.rewardConfig.rewardDuration,
                       amount / cs₁.rewardConfig.rewardDuration,
                       cs₁.rewardConfig.rewardDuration⟩
      lastUpdateBlock := height }

/-- `cw_utils::one_coin`: exactly one attached coin with a positive amount. -/
def oneCoin (info : MessageInfo) : Except ContractError Coin :=
  match info.funds with
  | [] => throw .invalidFunds
  | [c] => if c.amount = 0 then throw .invalidFunds else pure c
  | _ => throw .invalidFunds

/-- `cw_utils::must_pay` (payment errors already collapsed to `InvalidFunds`,
as `execute_fund_native` does with `map_err`). -/
def mustPay (info : MessageInfo) (denom : String) : Except ContractError Nat := do
  let c ← oneCoin info
  if c.denom = denom then pure c.amount else throw .invalidFunds

/-- `execute_fund_native`. -/
def executeFundNative (cs : ContractState) (height : Nat) (info : MessageInfo)
    (vp : VP) : Except ContractError ContractState :=
  match cs.config.rewardToken with
  | .native denom => do
      let amount ← mustPay info denom
      executeFund cs height vp info.sender amount
  | .cw20 _ => throw .invalidFunds

/-- `execute_claim`: reconcile the sender, reject with `NoRewardsClaimable` when
the reconciled pending amount is zero (or absent), otherwise zero it and emit a
transfer of exactly that amount in the reward denom.  The result carries the
successor state, the claimed amount and the transfer message. -/
def executeClaim (cs : ContractState) (height : Nat) (vp : VP) (sender : Addr) :
    Except ContractError (ContractState × Nat × CosmosMsg) :=
  (updateRewards cs height vp sender).mapError ContractError.std >>= fun cs₁ =>
  (match cs₁.pendingRewards sender with
    | none => throw ContractError.noRewardsClaimable
    | some r => pure r) >>= fun rewards =>
  if rewards = 0 then
    throw .noRewardsClaimable
  else
    pure ({ cs₁ with
          pendingRewards := Function.update cs₁.pendingRewards sender (some 0) },
        rewards, getTransferMsg sender rewards cs.config.rewardToken)

/-- `check_hook_caller`: the designated `hook_caller` if configured, otherwise
the voting-power contract, is the only sender allowed to call hooks. -/
def checkHookCaller (cs : ContractState) (info : MessageInfo) :
    Except ContractError Unit :=
  match cs.config.hookCaller with
  | some hookCaller =>
      if info.sender = hookCaller then pure () else throw .invalidHookSender
  | none =>
      if info.sender = cs.config.vpContract then pure () else throw .invalidHookSender

/-- `execute_stake`. -/
def executeStake (cs : ContractState) (height : Nat) (vp : VP) (addr : Addr) :
    Except ContractError ContractState :=
  (updateRewards cs height vp addr).mapError ContractError.std

/-- `execute_unstake`. -/
def executeUnstake (cs : ContractState) (height : Nat) (vp : VP) (addr : Addr) :
    Except ContractError ContractState :=
  (updateRewards cs height vp addr).mapError ContractError.std

/-- `dao_hooks::stake::StakeChangedHookMsg`. -/
inductive StakeChangedHookMsg where
  | stake (addr : Addr) (amount : Nat)
  | unstake (addr : Addr) (amount : Nat)
  deriving Repr, DecidableEq

/-- `dao_hooks::nft_stake::NftStakeChangedHookMsg`. -/
inductive NftStakeChangedHookMsg where
  | stake (addr : Addr) (tokenId : String)
  | unstake (addr : Addr) (tokenIds : List String)
  deriving Repr, DecidableEq

/-- `cw4::MemberDiff`. -/
structure MemberDiff where
  key : String
  old : Option Nat
  new : Option Nat
  deriving Repr, DecidableEq

/-- `cw4::MemberChangedHookMsg`. -/
structure MemberChangedHookMsg where
  diffs : List MemberDiff
  deriving Repr, DecidableEq

/-- `execute_stake_changed`. -/
def executeStakeChanged (cs : ContractState) (height : Nat) (vp : VP)
    (info : MessageInfo) (msg : StakeChangedHookMsg) :
    Except ContractError ContractState :=
  checkHookCaller cs info >>= fun _ =>
  match msg with
  | .stake addr _ => executeStake cs height vp addr
  | .unstake addr _ => executeUnstake cs height vp addr

/-- `execute_nft_stake_changed`. -/
def executeNftStakeChanged (cs : ContractState) (height : Nat) (vp : VP)
    (info : MessageInfo) (msg : NftStakeChangedHookMsg) :
    Except ContractError ContractState :=
  checkHookCaller cs info >>= fun _ =>
  match msg with
  | .stake addr _ => executeStake cs height vp addr
  | .unstake addr _ => executeUnstake cs height vp addr

/-- `execute_membership_changed`.  The source builds
`msg.diffs.iter().map(|member| { ... update_rewards(...) })` and binds it to
`_` without ever consuming the iterator (contract.rs lines 213-216); because
Rust iterators are lazy, none of the per-member closures run, so the function
performs the sender check and returns with storage untouched. -/
def executeMembershipChanged (cs : ContractState) (_height : Nat) (_vp : VP)
    (info : MessageInfo) (_msg : MemberChangedHookMsg) :
    Except ContractError ContractState :=
  checkHookCaller cs info >>= fun _ => pure cs

/-- `execute_update_reward_duration`. -/
def executeUpdateRewardDuration (cs : ContractState) (height : Nat)
    (sender : Addr) (newDuration : Nat) : Except ContractError ContractState :=
  assertOwner cs sender >>= fun _ =>
  if height < cs.rewardConfig.periodFinish then
    throw .rewardPeriodNotFinished
  else if newDuration = 0 then
    throw .zeroRewardDuration
  else
    pure { cs with
      rewardConfig := { cs.rewardConfig with rewardDuration := newDuration } }

/-- `PendingRewardsResponse`. -/
structure PendingRewardsResponse where
  address : Addr
  pendingRewards : Nat
  denom : Denom
  lastUpdateBlock : Nat
  deriving Repr, DecidableEq

/-- `query_pending_rewards` (a read-only query: it takes the state by value and
returns only a response, mirroring the `Deps`-not-`DepsMut` signature). -/
def queryPendingRewards (cs : ContractState) (height : Nat) (vp : VP)
    (addr : Addr) : Except StdErr PendingRewardsResponse := do
  let rewardPerToken ← getRewardPerToken cs height vp.total
  let earned ← getRewardsEarned cs addr rewardPerToken (vp.power addr)
  let existing := (cs.pendingRewards addr).getD 0
  let pending ← checkedAdd128 earned existing
  pure ⟨addr, pending, cs.config.rewardToken, cs.lastUpdateBlock⟩

/-- `instantiate`: rejects a zero reward duration; initial reward config is
`{period_finish: 0, reward_rate: 0, reward_duration}` and every lazily
initialised storage item reads as its default. -/
def instantiate (owner : Option Addr) (vpContract : Addr)
    (hookCaller : Option Addr) (rewardToken : Denom) (rewardDuration : Nat) :
    Except ContractError ContractState :=
  if rewardDuration = 0 then throw .zeroRewardDuration
  else pure
    { config := ⟨vpContract, hookCaller, rewardToken⟩
      owner := owner
      rewardConfig := ⟨0, 0, rewardDuration⟩
      lastUpdateBlock := 0
      rewardPerToken := 0
      userRewardPerToken := fun _ => 0
      pendingRewards := fun _ => none }

/-! ### Inversion helpers for the `Except` pipelines -/

section ExceptHelpers

variable {ε α β : Type}

lemma bind_ok_inv {x : Except ε α} {f : α → Except ε β} {b : β}
    (h : (x >>= f) = .ok b) : ∃ a, x = .ok a ∧ f a = .ok b := by
  cases x with
  | error e => simp [Bind.bind, Except.bind] at h
  | ok a => exact ⟨a, rfl, by simpa [Bind.bind, Except.bind] using h⟩

lemma pure_ok_inv {a b : α} (h : (pure a : Except ε α) = .ok b) : a = b := by
  simpa [Pure.pure, Except.pure] using h

lemma mapError_ok_inv {ε' : Type} {x : Except ε α} {f : ε → ε'} {b : α}
    (h : x.mapError f = .ok b) : x = .ok b := by
  cases x with
  | error e => simp [Except.mapError] at h
  | ok a => simpa [Except.mapError] using h

lemma ite_pure_throw_ok_inv {c : Prop} [Decidable c] {x : α} {e : ε} {b : α}
    (h : (if c then pure x else throw e : Except ε α) = .ok b) : c ∧ x = b := by
  by_cases hc : c
  · simp only [if_pos hc] at h
    exact ⟨hc, pure_ok_inv h⟩
  · simp [if_neg hc, throw, throwThe, MonadExceptOf.throw] at h

lemma ite_throw_pure_ok_inv {c : Prop} [Decidable c] {x : α} {e : ε} {b : α}
    (h : (if c then throw e else pure x : Except ε α) = .ok b) : ¬c ∧ x = b := by
  by_cases hc : c
  · simp [if_pos hc, throw, throwThe, MonadExceptOf.throw] at h
  · simp only [if_neg hc] at h
    exact ⟨hc, pure_ok_inv h⟩

lemma ite_throw_ok_inv {c : Prop} [Decidable c] {e : ε} {y : Except ε α} {b : α}
    (h : (if c then throw e else y) = .ok b) : ¬c ∧ y = .ok b := by
  by_cases hc : c
  · simp [if_pos hc, throw, throwThe, MonadExceptOf.throw] at h
  · exact ⟨hc, by simpa [if_neg hc] using h⟩

end ExceptHelpers

lemma checkedSubU64_ok {a b r : Nat} (h : checkedSubU64 a b = .ok r) :
    b ≤ a ∧ r = a - b := by
  have h' := ite_pure_throw_ok_inv (c := b ≤ a) (x := a - b) (e := StdErr.underflow) h
  exact ⟨h'.1, h'.2.symm⟩

lemma checkedSub256_ok {a b r : Nat} (h : checkedSub256 a b = .ok r) :
    b ≤ a ∧ r = a - b := by
  have h' := ite_pure_throw_ok_inv (c := b ≤ a) (x := a - b) (e := StdErr.underflow) h
  exact ⟨h'.1, h'.2.symm⟩

lemma checkedMul256_ok {a b r : Nat} (h : checkedMul256 a b = .ok r) :
    a * b < uint256Bound ∧ r = a * b := by
  have h' := ite_pure_throw_ok_inv (c := a * b < uint256Bound) (x := a * b)
    (e := StdErr.overflow) h
  exact ⟨h'.1, h'.2.symm⟩

lemma checkedDiv256_ok {a b r : Nat} (h : checkedDiv256 a b = .ok r) :
    r = a / b := by
  unfold checkedDiv256 at h
  rcases ite_throw_pure_ok_inv h with ⟨-, h⟩
  exact h.symm

lemma checkedAdd256_ok {a b r : Nat} (h : checkedAdd256 a b = .ok r) :
    a + b < uint256Bound ∧ r = a + b := by
  have h' := ite_pure_throw_ok_inv (c := a + b < uint256Bound) (x := a + b)
    (e := StdErr.overflow) h
  exact ⟨h'.1, h'.2.symm⟩

lemma checkedAdd128_ok {a b r : Nat} (h : checkedAdd128 a b = .ok r) :
    a + b < uint128Bound ∧ r = a + b := by
  have h' := ite_pure_throw_ok_inv (c := a + b < uint128Bound) (x := a + b)
    (e := StdErr.overflow) h
  exact ⟨h'.1, h'.2.symm⟩

lemma tryIntoU128_ok {a r : Nat} (h : tryIntoU128 a = .ok r) :
    a < uint128Bound ∧ r = a := by
  have h' := ite_pure_throw_ok_inv (c := a < uint128Bound) (x := a)
    (e := StdErr.conversionOverflow) h
  exact ⟨h'.1, h'.2.symm⟩

/-- Success characterization of `getRewardPerToken`: the accumulator never
decreases, the scaled increment times the total stake is bounded by the scaled
emission of the elapsed interval, and the result fits in a `Uint256`. -/
lemma getRewardPerToken_ok {cs : ContractState} {height total rpt' : Nat}
    (hok : getRewardPerToken cs height total = .ok rpt') :
    cs.rewardPerToken ≤ rpt' ∧
    total * (rpt' - cs.rewardPerToken) ≤
      scaleFactor * cs.rewardConfig.rewardRate *
        (getLastTimeRewardApplicable cs.rewardConfig height - cs.lastUpdateBlock) ∧
    rpt' < uint256Bound := by
  unfold getRewardPerToken at hok
  rcases bind_ok_inv hok with ⟨add, hadd, hfin⟩
  rcases checkedAdd256_ok hfin with ⟨hlt, hr⟩
  subst hr
  refine ⟨Nat.le_add_right _ _, ?_, hlt⟩
  rw [Nat.add_sub_cancel_left]
  by_cases h0 : total = 0
  · rw [if_pos h0] at hadd
    have h' := pure_ok_inv hadd
    subst h' h0
    simp
  · rw [if_neg h0] at hadd
    rcases bind_ok_inv hadd with ⟨elapsed, hel, h2⟩
    rcases bind_ok_inv h2 with ⟨num, hnum, hdiv⟩
    rcases checkedSubU64_ok hel with ⟨hle, he⟩
    rcases checkedMul256_ok hnum with ⟨-, hn⟩
    have hd := checkedDiv256_ok hdiv
    subst hd hn he
    calc total * (cs.rewardConfig.rewardRate *
            (getLastTimeRewardApplicable cs.rewardConfig height - cs.lastUpdateBlock) *
            scaleFactor / total)
        = (cs.rewardConfig.rewardRate *
            (getLastTimeRewardApplicable cs.rewardConfig height - cs.lastUpdateBlock) *
            scaleFactor / total) * total := by ring
      _ ≤ cs.rewardConfig.rewardRate *
            (getLastTimeRewardApplicable cs.rewardConfig height - cs.lastUpdateBlock) *
            scaleFactor := Nat.div_mul_le_self _ _
      _ = scaleFactor * cs.rewardConfig.rewardRate *
            (getLastTimeRewardApplicable cs.rewardConfig height - cs.lastUpdateBlock) := by
            ring

/-- Success characterization of `getRewardPerToken` in the zero-total-stake
branch: no division happens and the accumulator is returned unchanged. -/
lemma getRewardPerToken_zero_total {cs : ContractState} {height : Nat}
    (hlt : cs.rewardPerToken < uint256Bound) :
    getRewardPerToken cs height 0 = .ok cs.rewardPerToken := by
  unfold getRewardPerToken checkedAdd256
  simp [Bind.bind, Except.bind, Pure.pure, Except.pure, hlt]

/-- Success characterization of `getRewardsEarned`. -/
lemma getRewardsEarned_ok {cs : ContractState} {addr : Addr} {rpt power earned : Nat}
    (hok : getRewardsEarned cs addr rpt power = .ok earned) :
    cs.userRewardPerToken addr ≤ rpt ∧
    scaleFactor * earned ≤ power * (rpt - cs.userRewardPerToken addr) ∧
    earned < uint128Bound := by
  unfold getRewardsEarned at hok
  rcases bind_ok_inv hok with ⟨factor, hfac, h2⟩
  rcases bind_ok_inv h2 with ⟨prod, hprod, h3⟩
  rcases bind_ok_inv h3 with ⟨e, hdiv, hcast⟩
  rcases checkedSub256_ok hfac with ⟨hle, hf⟩
  rcases checkedMul256_ok hprod with ⟨-, hp⟩
  have hd := checkedDiv256_ok hdiv
  rcases tryIntoU128_ok hcast with ⟨hlt, he⟩
  subst hf hp hd he
  refine ⟨hle, ?_, hlt⟩
  calc scaleFactor * (power * (rpt - cs.userRewardPerToken addr) / scaleFactor)
      = (power * (rpt - cs.userRewardPerToken addr) / scaleFactor) * scaleFactor := by ring
    _ ≤ power * (rpt - cs.userRewardPerToken addr) := Nat.div_mul_le_self _ _

/-- Success characterization of `updateRewards`: the successor state is the
input state with the four storage writes performed. -/
lemma updateRewards_ok {cs : ContractState} {height : Nat} {vp : VP} {addr : Addr}
    {cs' : ContractState} (hok : updateRewards cs height vp addr = .ok cs') :
    ∃ rpt' earned,
      getRewardPerToken cs height vp.total = .ok rpt' ∧
      getRewardsEarned cs addr rpt' (vp.power addr) = .ok earned ∧
      (cs.pendingRewards addr).getD 0 + earned < uint128Bound ∧
      cs' = { cs with
        rewardPerToken := rpt'
        pendingRewards := Function.update cs.pendingRewards addr
          (some ((cs.pendingRewards addr).getD 0 + earned))
        userRewardPerToken := Function.update cs.userRewardPerToken addr rpt'
        lastUpdateBlock := getLastTimeRewardApplicable cs.rewardConfig height } := by
  unfold updateRewards at hok
  rcases bind_ok_inv hok with ⟨rpt', hrpt, h2⟩
  rcases bind_ok_inv h2 with ⟨earned, hearn, h3⟩
  rcases bind_ok_inv h3 with ⟨newPending, hpend, hfin⟩
  rcases checkedAdd128_ok hpend with ⟨hlt, hp⟩
  have hcs := pure_ok_inv hfin
  subst hp
  exact ⟨rpt', earned, hrpt, hearn, hlt, hcs.symm⟩

/-!  ### Trace model

The contract only changes voting powers through the external staking /
voting-power contract, which notifies this contract through hooks.  The
staking contracts used with this distributor store balances in snapshot maps,
so an oracle query issued with `height: None` during the hook transaction
still observes the pre-change voting power; the changed power is visible from
the next block on.  A stake-change event is therefore modelled as: reconcile
the affected address against the *current* powers, then install the new power.
The oracle always reports each address's power and, as the total, the sum of
the powers of the finite address universe `U` of the trace. -/

/-- The pending amount a user's ledger holds (zero when no entry exists). -/
def pend (cs : ContractState) (u : Addr) : Nat := (cs.pendingRewards u).getD 0

/-- Full system state: contract storage, staked powers, current block height,
plus ghost totals of all successfully funded and claimed amounts. -/
structure Sys where
  cs : ContractState
  pow : Addr → Nat
  height : Nat
  funded : Nat
  claimed : Nat

/-- The voting-power oracle induced by the staked powers. -/
def oracle (U : Finset Addr) (pow : Addr → Nat) : VP :=
  ⟨∑ u ∈ U, pow u, pow⟩

/-- One successful transaction of the system (block heights never decrease;
transactions that error abort atomically and are not steps). -/
inductive Step (U : Finset Addr) : Sys → Sys → Prop where
  | fund (s : Sys) (h sender amount : Nat) (cs' : ContractState)
      (hh : s.height ≤ h) (hs : sender ∈ U)
      (hok : executeFund s.cs h (oracle U s.pow) sender amount = .ok cs') :
      Step U s ⟨cs', s.pow, h, s.funded + amount, s.claimed⟩
  | claim (s : Sys) (h sender : Nat) (cs' : ContractState) (amt : Nat) (msg : CosmosMsg)
      (hh : s.height ≤ h) (hs : sender ∈ U)
      (hok : executeClaim s.cs h (oracle U s.pow) sender = .ok (cs', amt, msg)) :
      Step U s ⟨cs', s.pow, h, s.funded, s.claimed + amt⟩
  | stakeChange (s : Sys) (h u newPow : Nat) (cs' : ContractState)
      (hh : s.height ≤ h) (hu : u ∈ U)
      (hok : executeStake s.cs h (oracle U s.pow) u = .ok cs') :
      Step U s ⟨cs', Function.update s.pow u newPow, h, s.funded, s.claimed⟩
  | updateDuration (s : Sys) (h sender newDuration : Nat) (cs' : ContractState)
      (hh : s.height ≤ h)
      (hok : executeUpdateRewardDuration s.cs h sender newDuration = .ok cs') :
      Step U s ⟨cs', s.pow, h, s.funded, s.claimed⟩

/-- Reachability: any freshly instantiated contract, followed by steps. -/
inductive Reach (U : Finset Addr) : Sys → Prop where
  | init (owner : Option Addr) (vpc : Addr) (hookCaller : Option Addr)
      (tok : Denom) (duration : Nat) (pow : Addr → Nat) (h : Nat)
      (cs : ContractState)
      (hok : instantiate owner vpc hookCaller tok duration = .ok cs) :
      Reach U ⟨cs, pow, h, 0, 0⟩
  | step {s s' : Sys} : Reach U s → Step U s s' → Reach U s'

/-- The inductive invariant: `LAST_UPDATE_BLOCK` is bounded by `period_finish`
and by the current height, every user's observed accumulator lags the global
one, and (scaled) claimed + pending + unharvested + still-to-be-emitted
rewards never exceed the (scaled) funded total. -/
def SysInv (U : Finset Addr) (s : Sys) : Prop :=
  s.cs.lastUpdateBlock ≤ s.cs.rewardConfig.periodFinish ∧
  s.cs.lastUpdateBlock ≤ s.height ∧
  (∀ u, s.cs.userRewardPerToken u ≤ s.cs.rewardPerToken) ∧
  scaleFactor * s.claimed + scaleFactor * (∑ u ∈ U, pend s.cs u)
    + (∑ u ∈ U, s.pow u * (s.cs.rewardPerToken - s.cs.userRewardPerToken u))
    + scaleFactor * s.cs.rewardConfig.rewardRate *
        (s.cs.rewardConfig.periodFinish - s.cs.lastUpdateBlock)
    ≤ scaleFactor * s.funded

/-- Arithmetic core of the reconciliation step of the conservation proof. -/
lemma conservation_step_arith (S claimed funded pA e wA cA Sp Sf Sw d x y R : Nat)
    (hmain : S*claimed + S*(pA + Sp) + (wA*cA + Sf) + S*R*(x+y) ≤ S*funded)
    (hE : S*e ≤ wA*cA + wA*d)
    (hT : (wA + Sw)*d ≤ S*R*y) :
    S*claimed + S*(pA + e + Sp) + (Sf + Sw*d) + S*R*x ≤ S*funded := by
  have h1 : S*(pA + Sp) = S*pA + S*Sp := by ring
  have h2 : S*(pA + e + Sp) = S*pA + S*e + S*Sp := by ring
  have h3 : S*R*(x+y) = S*R*x + S*R*y := by ring
  have h4 : (wA + Sw)*d = wA*d + Sw*d := by ring
  rw [h1, h3] at hmain
  rw [h2]
  rw [h4] at hT
  linarith

/-- Reconciling any member of the address universe preserves the invariant. -/
lemma sysInv_updateRewards {U : Finset Addr} {s : Sys} {h : Nat} {addr : Addr}
    {cs' : ContractState}
    (hInv : SysInv U s) (hh : s.height ≤ h) (haddr : addr ∈ U)
    (hok : updateRewards s.cs h (oracle U s.pow) addr = .ok cs') :
    SysInv U ⟨cs', s.pow, h, s.funded, s.claimed⟩ := by
  obtain ⟨hlu_fin, hlu_ht, husr, hmain⟩ := hInv
  obtain ⟨rpt', earned, hrpt, hearn, hplt, hcs'⟩ := updateRewards_ok hok
  obtain ⟨hmono, hbound, hrpt_lt⟩ := getRewardPerToken_ok hrpt
  obtain ⟨huser_le, hearned_le, hearned_lt⟩ := getRewardsEarned_ok hearn
  subst hcs'
  unfold SysInv
  dsimp only
  have hltra_fin : min h s.cs.rewardConfig.periodFinish ≤ s.cs.rewardConfig.periodFinish :=
    min_le_right _ _
  have hltra_h : min h s.cs.rewardConfig.periodFinish ≤ h := min_le_left _ _
  have hlu_ltra : s.cs.lastUpdateBlock ≤ min h s.cs.rewardConfig.periodFinish :=
    le_min (le_trans hlu_ht hh) hlu_fin
  refine ⟨?_, ?_, ?_, ?_⟩
  · exact hltra_fin
  · exact hltra_h
  · intro u
    by_cases hu : u = addr
    · subst hu; simp [Function.update]
    · simp only [Function.update_noteq hu]
      exact le_trans (husr u) hmono
  · -- the main accounting inequality
    have hpend' : ∀ u, pend { s.cs with
        rewardPerToken := rpt'
        pendingRewards := Function.update s.cs.pendingRewards addr
          (some ((s.cs.pendingRewards addr).getD 0 + earned))
        userRewardPerToken := Function.update s.cs.userRewardPerToken addr rpt'
        lastUpdateBlock := getLastTimeRewardApplicable s.cs.rewardConfig h } u
        = Function.update (pend s.cs) addr (pend s.cs addr + earned) u := by
      intro u
      by_cases hu : u = addr
      · subst hu; simp [pend, Function.update]
      · simp [pend, Function.update, hu]
    rw [Finset.sum_congr rfl fun u _ => hpend' u]
    rw [Finset.sum_update_of_mem haddr, ← Finset.erase_eq]
    -- the factor sum: the reconciled user's term vanishes
    have hfac_new : (∑ u ∈ U, s.pow u * (rpt' - Function.update s.cs.userRewardPerToken addr rpt' u))
        = ∑ u ∈ U.erase addr, s.pow u * (rpt' - s.cs.userRewardPerToken u) := by
      rw [← Finset.add_sum_erase U _ haddr]
      rw [Function.update_same]
      simp only [Nat.sub_self, Nat.mul_zero, Nat.zero_add]
      refine Finset.sum_congr rfl fun u hu => ?_
      rw [Function.update_noteq (Finset.ne_of_mem_erase hu)]
    rw [hfac_new]
    have hfac_split : (∑ u ∈ U.erase addr, s.pow u * (rpt' - s.cs.userRewardPerToken u))
        = (∑ u ∈ U.erase addr, s.pow u * (s.cs.rewardPerToken - s.cs.userRewardPerToken u))
          + (∑ u ∈ U.erase addr, s.pow u) * (rpt' - s.cs.rewardPerToken) := by
      rw [Finset.sum_mul, ← Finset.sum_add_distrib]
      refine Finset.sum_congr rfl fun u _ => ?_
      have h1 : s.cs.userRewardPerToken u ≤ s.cs.rewardPerToken := husr u
      have h2 : rpt' - s.cs.userRewardPerToken u
          = (s.cs.rewardPerToken - s.cs.userRewardPerToken u) + (rpt' - s.cs.rewardPerToken) := by
        omega
      rw [h2, Nat.mul_add]
    rw [hfac_split]
    -- decompose the old sums at `addr`
    have hpend_old : (∑ u ∈ U, pend s.cs u)
        = pend s.cs addr + ∑ u ∈ U.erase addr, pend s.cs u :=
      (Finset.add_sum_erase U _ haddr).symm
    have hfac_old : (∑ u ∈ U, s.pow u * (s.cs.rewardPerToken - s.cs.userRewardPerToken u))
        = s.pow addr * (s.cs.rewardPerToken - s.cs.userRewardPerToken addr)
          + ∑ u ∈ U.erase addr, s.pow u * (s.cs.rewardPerToken - s.cs.userRewardPerToken u) :=
      (Finset.add_sum_erase U _ haddr).symm
    have hpow_dec : (∑ u ∈ U, s.pow u) = s.pow addr + ∑ u ∈ U.erase addr, s.pow u :=
      (Finset.add_sum_erase U _ haddr).symm
    have htime : s.cs.rewardConfig.periodFinish - s.cs.lastUpdateBlock
        = (s.cs.rewardConfig.periodFinish - min h s.cs.rewardConfig.periodFinish)
          + (min h s.cs.rewardConfig.periodFinish - s.cs.lastUpdateBlock) := by
      omega
    rw [hpend_old, hfac_old, htime] at hmain
    -- the oracle answers
    have hbound' : (s.pow addr + ∑ u ∈ U.erase addr, s.pow u) * (rpt' - s.cs.rewardPerToken)
        ≤ scaleFactor * s.cs.rewardConfig.rewardRate *
            (min h s.cs.rewardConfig.periodFinish - s.cs.lastUpdateBlock) := by
      rw [← hpow_dec]
      simpa [oracle, getLastTimeRewardApplicable] using hbound
    have hearn' : scaleFactor * earned
        ≤ s.pow addr * (s.cs.rewardPerToken - s.cs.userRewardPerToken addr)
          + s.pow addr * (rpt' - s.cs.rewardPerToken) := by
      have h2 : rpt' - s.cs.userRewardPerToken addr
          = (s.cs.rewardPerToken - s.cs.userRewardPerToken addr)
            + (rpt' - s.cs.rewardPerToken) := by
        have := husr addr
        omega
      have h3 := hearned_le
      rw [h2, Nat.mul_add] at h3
      simpa [oracle] using h3
    have hgoal := conservation_step_arith scaleFactor s.claimed s.funded
      (pend s.cs addr) earned (s.pow addr)
      (s.cs.rewardPerToken - s.cs.userRewardPerToken addr)
      (∑ u ∈ U.erase addr, pend s.cs u)
      (∑ u ∈ U.erase addr, s.pow u * (s.cs.rewardPerToken - s.cs.userRewardPerToken u))
      (∑ u ∈ U.erase addr, s.pow u)
      (rpt' - s.cs.rewardPerToken)
      (s.cs.rewardConfig.periodFinish - min h s.cs.rewardConfig.periodFinish)
      (min h s.cs.rewardConfig.periodFinish - s.cs.lastUpdateBlock)
      s.cs.rewardConfig.rewardRate
      (by linarith [hmain]) hearn' hbound'
    simp only [getLastTimeRewardApplicable]
    unfold pend at hgoal ⊢
    linarith [hgoal]

/-- Inversion of a successful `executeClaim`. -/
lemma executeClaim_ok_inv {cs : ContractState} {h : Nat} {vp : VP} {sender : Addr}
    {cs' : ContractState} {amt : Nat} {msg : CosmosMsg}
    (hok : executeClaim cs h vp sender = .ok (cs', amt, msg)) :
    ∃ cs₁, updateRewards cs h vp sender = .ok cs₁ ∧
      cs₁.pendingRewards sender = some amt ∧ amt ≠ 0 ∧
      cs' = { cs₁ with
        pendingRewards := Function.update cs₁.pendingRewards sender (some 0) } ∧
      msg = getTransferMsg sender amt cs.config.rewardToken := by
  unfold executeClaim at hok
  rcases bind_ok_inv hok with ⟨cs₁, hupd, h2⟩
  rcases bind_ok_inv h2 with ⟨rewards, hrew, h3⟩
  rcases ite_throw_pure_ok_inv h3 with ⟨hne, htriple⟩
  have hr : cs₁.pendingRewards sender = some rewards := by
    cases hp : cs₁.pendingRewards sender with
    | none =>
        rw [hp] at hrew
        simp [throw, throwThe, MonadExceptOf.throw] at hrew
    | some r =>
        rw [hp] at hrew
        have := pure_ok_inv hrew
        rw [this]
  obtain ⟨hcs, hamt, hmsg⟩ : cs' = _ ∧ amt = rewards ∧ msg = _ := by
    have h4 := htriple
    rw [Prod.mk.injEq, Prod.mk.injEq] at h4
    exact ⟨h4.1.symm, h4.2.1.symm, h4.2.2.symm⟩
  subst hamt
  exact ⟨cs₁, mapError_ok_inv hupd, hr, hne, hcs, hmsg⟩

/-- Inversion of a successful `executeFund`. -/
lemma executeFund_ok_inv {cs : ContractState} {h : Nat} {vp : VP} {sender : Addr}
    {amount : Nat} {cs' : ContractState}
    (hok : executeFund cs h vp sender amount = .ok cs') :
    ∃ cs₁, updateRewards cs h vp sender = .ok cs₁ ∧
      cs₁.rewardConfig.periodFinish ≤ h ∧
      amount / cs₁.rewardConfig.rewardDuration ≠ 0 ∧
      cs' = { cs₁ with
        rewardConfig := ⟨h + cs₁.rewardConfig.rewardDuration,
                         amount / cs₁.rewardConfig.rewardDuration,
                         cs₁.rewardConfig.rewardDuration⟩
        lastUpdateBlock := h } := by
  unfold executeFund at hok
  rcases bind_ok_inv hok with ⟨-, -, h1⟩
  rcases bind_ok_inv h1 with ⟨cs₁, hupd, h2⟩
  rcases ite_throw_ok_inv h2 with ⟨hfin, h3⟩
  rcases ite_throw_ok_inv h3 with ⟨-, h4⟩
  rcases ite_throw_ok_inv h4 with ⟨-, h5⟩
  rcases ite_throw_pure_ok_inv h5 with ⟨hrate, hcs⟩
  exact ⟨cs₁, mapError_ok_inv hupd, Nat.le_of_not_lt hfin, hrate, hcs.symm⟩

/-- Inversion of a successful `executeUpdateRewardDuration`. -/
lemma executeUpdateRewardDuration_ok_inv {cs : ContractState} {h : Nat}
    {sender newDuration : Nat} {cs' : ContractState}
    (hok : executeUpdateRewardDuration cs h sender newDuration = .ok cs') :
    cs' = { cs with
      rewardConfig := { cs.rewardConfig with rewardDuration := newDuration } } := by
  unfold executeUpdateRewardDuration at hok
  rcases bind_ok_inv hok with ⟨-, -, h1⟩
  rcases ite_throw_ok_inv h1 with ⟨-, h2⟩
  rcases ite_throw_ok_inv h2 with ⟨-, h3⟩
  exact (pure_ok_inv h3).symm

/-- Inversion of a successful `instantiate`. -/
lemma instantiate_ok_inv {owner : Option Addr} {vpc : Addr} {hookCaller : Option Addr}
    {tok : Denom} {duration : Nat} {cs : ContractState}
    (hok : instantiate owner vpc hookCaller tok duration = .ok cs) :
    duration ≠ 0 ∧
    cs = { config := ⟨vpc, hookCaller, tok⟩
           owner := owner
           rewardConfig := ⟨0, 0, duration⟩
           lastUpdateBlock := 0
           rewardPerToken := 0
           userRewardPerToken := fun _ => 0
           pendingRewards := fun _ => none } := by
  unfold instantiate at hok
  rcases ite_throw_pure_ok_inv hok with ⟨hd, h⟩
  exact ⟨hd, h.symm⟩

/-- Every step of the system preserves the invariant. -/
lemma sysInv_step {U : Finset Addr} {s s' : Sys}
    (hInv : SysInv U s) (hstep : Step U s s') : SysInv U s' := by
  cases hstep with
  | fund h sender amount cs' hh hs hok =>
      obtain ⟨cs₁, hupd, hfin, hrate, hcs'⟩ := executeFund_ok_inv hok
      have hInv₁ := sysInv_updateRewards hInv hh hs hupd
      obtain ⟨rpt', earned, hrpt, hearn, hplt, hcs₁⟩ := updateRewards_ok hupd
      subst hcs₁
      subst hcs'
      obtain ⟨h1, h2, h3, h4⟩ := hInv₁
      unfold SysInv
      dsimp only at hfin h1 h2 h3 h4 ⊢
      refine ⟨Nat.le_add_right _ _, le_refl h, h3, ?_⟩
      have hmin : getLastTimeRewardApplicable s.cs.rewardConfig h
          = s.cs.rewardConfig.periodFinish := min_eq_right hfin
      rw [hmin] at h4
      simp only [Nat.sub_self, Nat.mul_zero, Nat.add_zero] at h4
      have hcancel : h + s.cs.rewardConfig.rewardDuration - h
          = s.cs.rewardConfig.rewardDuration := by omega
      rw [hcancel]
      have hdiv : scaleFactor * (amount / s.cs.rewardConfig.rewardDuration)
            * s.cs.rewardConfig.rewardDuration ≤ scaleFactor * amount := by
        calc scaleFactor * (amount / s.cs.rewardConfig.rewardDuration)
                * s.cs.rewardConfig.rewardDuration
            = scaleFactor * ((amount / s.cs.rewardConfig.rewardDuration)
                * s.cs.rewardConfig.rewardDuration) := by ring
          _ ≤ scaleFactor * amount :=
              Nat.mul_le_mul_left _ (Nat.div_mul_le_self _ _)
      have hrhs : scaleFactor * (s.funded + amount)
          = scaleFactor * s.funded + scaleFactor * amount := by ring
      rw [hrhs]
      unfold pend at h4 ⊢
      dsimp only at h4 ⊢
      linarith
  | claim h sender cs' amt msg hh hs hok =>
      obtain ⟨cs₁, hupd, hpend, hne, hcs', hmsg⟩ := executeClaim_ok_inv hok
      have hInv₁ := sysInv_updateRewards hInv hh hs hupd
      subst hcs'
      obtain ⟨h1, h2, h3, h4⟩ := hInv₁
      unfold SysInv
      dsimp only at h1 h2 h3 h4 ⊢
      refine ⟨h1, h2, h3, ?_⟩
      have hpend' : ∀ u, pend { cs₁ with
          pendingRewards := Function.update cs₁.pendingRewards sender (some 0) } u
          = Function.update (pend cs₁) sender 0 u := by
        intro u
        by_cases hu : u = sender
        · subst hu; simp [pend, Function.update]
        · simp [pend, Function.update, hu]
      rw [Finset.sum_congr rfl fun u _ => hpend' u]
      rw [Finset.sum_update_of_mem hs, ← Finset.erase_eq]
      have hdec : (∑ u ∈ U, pend cs₁ u) = amt + ∑ u ∈ U.erase sender, pend cs₁ u := by
        rw [← Finset.add_sum_erase U _ hs]
        unfold pend
        rw [hpend]
        rfl
      rw [hdec] at h4
      have e1 : scaleFactor * (s.claimed + amt)
          = scaleFactor * s.claimed + scaleFactor * amt := by ring
      have e2 : scaleFactor * (amt + ∑ u ∈ U.erase sender, pend cs₁ u)
          = scaleFactor * amt + scaleFactor * (∑ u ∈ U.erase sender, pend cs₁ u) := by ring
      rw [e2] at h4
      rw [e1]
      have e3 : scaleFactor * (0 + ∑ u ∈ U.erase sender, pend cs₁ u)
          = scaleFactor * (∑ u ∈ U.erase sender, pend cs₁ u) := by ring
      rw [e3]
      linarith
  | stakeChange h u newPow cs' hh hu hok =>
      unfold executeStake at hok
      have hupd := mapError_ok_inv hok
      have hInv₁ := sysInv_updateRewards hInv hh hu hupd
      obtain ⟨rpt', earned, hrpt, hearn, hplt, hcs'⟩ := updateRewards_ok hupd
      subst hcs'
      obtain ⟨h1, h2, h3, h4⟩ := hInv₁
      unfold SysInv
      dsimp only at h1 h2 h3 h4 ⊢
      refine ⟨h1, h2, h3, ?_⟩
      have hfs : (∑ x ∈ U, Function.update s.pow u newPow x
            * (rpt' - Function.update s.cs.userRewardPerToken u rpt' x))
          = ∑ x ∈ U, s.pow x
            * (rpt' - Function.update s.cs.userRewardPerToken u rpt' x) := by
        refine Finset.sum_congr rfl fun x hx => ?_
        by_cases hxu : x = u
        · subst hxu; simp [Function.update]
        · rw [Function.update_noteq hxu]
      rw [hfs]
      exact h4
  | updateDuration h sender newDuration cs' hh hok =>
      have hcs' := executeUpdateRewardDuration_ok_inv hok
      subst hcs'
      obtain ⟨h1, h2, h3, h4⟩ := hInv
      exact ⟨h1, le_trans h2 hh, h3, h4⟩

/-- Every reachable system state satisfies the invariant. -/
lemma reach_sysInv {U : Finset Addr} {s : Sys} (hr : Reach U s) : SysInv U s := by
  induction hr with
  | init owner vpc hookCaller tok duration pow h cs hok =>
      obtain ⟨-, hcs⟩ := instantiate_ok_inv hok
      subst hcs
      refine ⟨le_refl 0, Nat.zero_le h, fun u => le_refl 0, ?_⟩
      simp [pend]
  | step hr hstep ih => exact sysInv_step ih hstep

/-- Scaled conservation implies plain conservation. -/
lemma reach_conservation {U : Finset Addr} {s : Sys} (hr : Reach U s) :
    s.claimed + (∑ u ∈ U, pend s.cs u) ≤ s.funded := by
  obtain ⟨-, -, -, h4⟩ := reach_sysInv hr
  have hS : 0 < scaleFactor := by norm_num [scaleFactor]
  have hmul : scaleFactor * (s.claimed + ∑ u ∈ U, pend s.cs u)
      ≤ scaleFactor * s.funded := by
    have e : scaleFactor * (s.claimed + ∑ u ∈ U, pend s.cs u)
        = scaleFactor * s.claimed + scaleFactor * (∑ u ∈ U, pend s.cs u) := by ring
    rw [e]
    have hn1 := Nat.zero_le
      (∑ u ∈ U, s.pow u * (s.cs.rewardPerToken - s.cs.userRewardPerToken u))
    have hn2 := Nat.zero_le
      (scaleFactor * s.cs.rewardConfig.rewardRate *
        (s.cs.rewardConfig.periodFinish - s.cs.lastUpdateBlock))
    linarith
  exact Nat.le_of_mul_le_mul_left hmul hS

/-- Error shapes of the checked operations. -/
lemma checkedMul256_error {a b : Nat} {e : StdErr} (h : checkedMul256 a b = .error e) :
    e = .overflow := by
  unfold checkedMul256 at h
  split at h
  · simp [Pure.pure, Except.pure] at h
  · simp only [throw, throwThe, MonadExceptOf.throw, Except.error.injEq] at h
    exact h.symm

lemma checkedAdd256_error {a b : Nat} {e : StdErr} (h : checkedAdd256 a b = .error e) :
    e = .overflow := by
  unfold checkedAdd256 at h
  split at h
  · simp [Pure.pure, Except.pure] at h
  · simp only [throw, throwThe, MonadExceptOf.throw, Except.error.injEq] at h
    exact h.symm

/-- As long as `LAST_UPDATE_BLOCK` does not exceed
`min(height, period_finish)`, the unchecked `u64` subtraction inside
`get_reward_per_token` cannot underflow, whatever the reported total power. -/
lemma getRewardPerToken_ne_underflow {cs : ContractState} {h total : Nat}
    (hle : cs.lastUpdateBlock ≤ getLastTimeRewardApplicable cs.rewardConfig h) :
    getRewardPerToken cs h total ≠ .error .underflow := by
  unfold getRewardPerToken
  by_cases h0 : total = 0
  · rw [if_pos h0]
    intro hc
    have hadd : checkedAdd256 cs.rewardPerToken 0 = .error .underflow := by
      simpa [Bind.bind, Except.bind, Pure.pure, Except.pure] using hc
    have := checkedAdd256_error hadd
    simp at this
  · rw [if_neg h0]
    have hsub : checkedSubU64 (getLastTimeRewardApplicable cs.rewardConfig h)
        cs.lastUpdateBlock = .ok (getLastTimeRewardApplicable cs.rewardConfig h
          - cs.lastUpdateBlock) := by
      unfold checkedSubU64
      rw [if_pos hle]
      rfl
    simp only [Bind.bind, Except.bind, hsub]
    cases hm : checkedMul256 (cs.rewardConfig.rewardRate *
        (getLastTimeRewardApplicable cs.rewardConfig h - cs.lastUpdateBlock))
        scaleFactor with
    | error e =>
        have := checkedMul256_error hm
        subst this
        simp
    | ok n =>
        unfold checkedDiv256
        simp only [if_neg h0, Pure.pure, Except.pure]
        cases ha : checkedAdd256 cs.rewardPerToken (n / total) with
        | error e =>
            have := checkedAdd256_error ha
            subst this
            simp [ha]
        | ok v => simp [ha]

/-- Address universe of the concrete traces. -/
def c1U : Finset Addr := {0, 1}

/-- Powers of the concrete trace: address 1 stakes one unit, the owner
(address 0) stakes nothing. -/
def c1Pow : Addr → Nat := fun u => if u = 1 then 1 else 0

/-- Freshly instantiated contract with reward duration 2 owned by address 0. -/
def c1State0 : ContractState :=
  { config := ⟨10, none, .native "utest"⟩
    owner := some 0
    rewardConfig := ⟨0, 0, 2⟩
    lastUpdateBlock := 0
    rewardPerToken := 0
    userRewardPerToken := fun _ => 0
    pendingRewards := fun _ => none }

def c1Sys0 : Sys := ⟨c1State0, c1Pow, 0, 0, 0⟩

/-- State after the owner funds 3 tokens at block 0 (rate `3 / 2 = 1`). -/
def c1StateF : ContractState :=
  match executeFund c1State0 0 (oracle c1U c1Pow) 0 3 with
  | .ok c => c
  | .error _ => c1State0

def c1SysF : Sys := ⟨c1StateF, c1Pow, 0, 3, 0⟩

/-- State after staker 1 claims at block 2 (= `period_finish`). -/
def c1StateC : ContractState :=
  match executeClaim c1StateF 2 (oracle c1U c1Pow) 1 with
  | .ok r => r.1
  | .error _ => c1StateF

def c1SysC : Sys := ⟨c1StateC, c1Pow, 2, 3, 2⟩

/-- The concrete trace instantiate → fund 3 → claim is reachable. -/
lemma c1_reach : Reach c1U c1SysC := by
  have h0 : Reach c1U c1Sys0 :=
    Reach.init (some 0) 10 none (.native "utest") 2 c1Pow 0 c1State0 rfl
  have h1 : Reach c1U c1SysF :=
    Reach.step h0 (Step.fund c1Sys0 0 0 3 c1StateF (le_refl 0) (by decide) rfl)
  exact Reach.step h1 (Step.claim c1SysF 2 1 c1StateC 2
    (CosmosMsg.bankSend 1 2 "utest") (Nat.zero_le 2) (by decide) rfl)

/-- C1 (amended).  For every reachable system state the total amount paid out
by claims plus the sum of all users' pending rewards never exceeds the total
amount funded.  (The equality clause of the original claim fails; see the
counterexample.) -/
theorem c1_conservation {U : Finset Addr} {s : Sys} (hr : Reach U s) :
    s.claimed + (∑ u ∈ U, pend s.cs u) ≤ s.funded :=
  reach_conservation hr

theorem c1_conservation_witness :
    c1SysC.claimed + (∑ u ∈ c1U, pend c1SysC.cs u) ≤ c1SysC.funded :=
  c1_conservation c1_reach

/-- C1 counterexample to the equality clause: in the reachable trace
fund 3 over duration 2 (rate `3 / 2 = 1`) followed by a claim at
`period_finish`, the period has fully elapsed and both addresses are fully
reconciled (a pending-rewards query reports exactly the stored ledger value,
i.e. zero further accrual), yet claimed + pending = 2 < 3 = funded: the floor
division `amount / reward_duration` strands a remainder, so equality fails. -/
theorem c1_equality_counterexample :
    Reach c1U c1SysC ∧
    c1SysC.cs.rewardConfig.periodFinish ≤ c1SysC.height ∧
    (queryPendingRewards c1SysC.cs c1SysC.height (oracle c1U c1Pow) 0).map
      PendingRewardsResponse.pendingRewards = .ok (pend c1SysC.cs 0) ∧
    (queryPendingRewards c1SysC.cs c1SysC.height (oracle c1U c1Pow) 1).map
      PendingRewardsResponse.pendingRewards = .ok (pend c1SysC.cs 1) ∧
    c1SysC.claimed + (∑ u ∈ c1U, pend c1SysC.cs u) < c1SysC.funded :=
  ⟨c1_reach, by decide, rfl, rfl, by decide⟩

/-- C10: in every reachable state the stored `LAST_UPDATE_BLOCK` is at most
`min(current height, period_finish)`, so the unchecked `u64` subtraction
inside `get_reward_per_token` can never underflow for any later operation at
any height and any reported total power. -/
theorem c10_no_underflow {U : Finset Addr} {s : Sys} (hr : Reach U s) :
    s.cs.lastUpdateBlock ≤ min s.height s.cs.rewardConfig.periodFinish ∧
    ∀ h total, s.height ≤ h →
      getRewardPerToken s.cs h total ≠ .error .underflow := by
  obtain ⟨h1, h2, -, -⟩ := reach_sysInv hr
  refine ⟨le_min h2 h1, ?_⟩
  intro h total hht
  exact getRewardPerToken_ne_underflow (le_min (le_trans h2 hht) h1)

theorem c10_no_underflow_witness :
    c1SysC.cs.lastUpdateBlock ≤ min c1SysC.height c1SysC.cs.rewardConfig.periodFinish ∧
    getRewardPerToken c1SysC.cs 5 1 ≠ .error .underflow := by
  obtain ⟨ha, hb⟩ := c10_no_underflow c1_reach
  exact ⟨ha, hb 5 1 (by decide)⟩

lemma ok_bind {ε α β : Type} (a : α) (f : α → Except ε β) :
    (Except.ok a >>= f : Except ε β) = f a := rfl

lemma error_bind {ε α β : Type} (e : ε) (f : α → Except ε β) :
    (Except.error e >>= f : Except ε β) = Except.error e := rfl

lemma uint256Bound_pos : 0 < uint256Bound := by decide

lemma uint128Bound_pos : 0 < uint128Bound := by decide

lemma scaleFactor_ne_zero : scaleFactor ≠ 0 := by decide

lemma getRewardPerToken_noop {cs : ContractState} {h total : Nat}
    (hlu : cs.lastUpdateBlock = getLastTimeRewardApplicable cs.rewardConfig h)
    (hlt : cs.rewardPerToken < uint256Bound) :
    getRewardPerToken cs h total = .ok cs.rewardPerToken := by
  have hadd : checkedAdd256 cs.rewardPerToken 0 = .ok cs.rewardPerToken := by
    unfold checkedAdd256
    rw [Nat.add_zero, if_pos hlt]
    rfl
  unfold getRewardPerToken
  by_cases h0 : total = 0
  · rw [if_pos h0]
    show (Except.ok 0 >>= fun additional => checkedAdd256 cs.rewardPerToken additional)
        = .ok cs.rewardPerToken
    rw [ok_bind]
    exact hadd
  · rw [if_neg h0]
    have hsub : checkedSubU64 (getLastTimeRewardApplicable cs.rewardConfig h)
        cs.lastUpdateBlock = .ok 0 := by
      unfold checkedSubU64
      rw [hlu, Nat.sub_self, if_pos (le_refl _)]
      rfl
    have hmul : checkedMul256 (cs.rewardConfig.rewardRate * 0) scaleFactor = .ok 0 := by
      unfold checkedMul256
      rw [Nat.mul_zero, Nat.zero_mul, if_pos uint256Bound_pos]
      rfl
    have hdiv : checkedDiv256 0 total = .ok 0 := by
      unfold checkedDiv256
      rw [if_neg h0, Nat.zero_div]
      rfl
    rw [hsub, ok_bind, hmul, ok_bind, hdiv, ok_bind]
    exact hadd

lemma getRewardsEarned_noop {cs : ContractState} {addr : Addr} {rpt power : Nat}
    (h : cs.userRewardPerToken addr = rpt) :
    getRewardsEarned cs addr rpt power = .ok 0 := by
  unfold getRewardsEarned
  have hsub : checkedSub256 rpt (cs.userRewardPerToken addr) = .ok 0 := by
    unfold checkedSub256
    rw [h, Nat.sub_self, if_pos (le_refl _)]
    rfl
  have hmul : checkedMul256 power 0 = .ok 0 := by
    unfold checkedMul256
    rw [Nat.mul_zero, if_pos uint256Bound_pos]
    rfl
  have hdiv : checkedDiv256 0 scaleFactor = .ok 0 := by
    unfold checkedDiv256
    rw [if_neg scaleFactor_ne_zero, Nat.zero_div]
    rfl
  have hcast : tryIntoU128 0 = .ok 0 := by
    unfold tryIntoU128
    rw [if_pos uint128Bound_pos]
    rfl
  rw [hsub, ok_bind, hmul, ok_bind, hdiv, ok_bind]
  exact hcast

/-- C4: idempotent reconciliation.  Reconciling the same address twice at the
same block height with the same oracle answers (no intervening stake change or
funding) is the same as reconciling it once: the second `update_rewards` call
adds zero to the pending ledger and leaves the global reward-per-token
accumulator, the address's last-observed reward-per-token and
`LAST_UPDATE_BLOCK` exactly as after the first call. -/
theorem c4_idempotent_reconciliation (cs : ContractState) (h : Nat) (vp : VP)
    (addr : Addr) :
    (updateRewards cs h vp addr >>= fun cs₁ => updateRewards cs₁ h vp addr)
      = updateRewards cs h vp addr := by
  cases hu : updateRewards cs h vp addr with
  | error e => rw [error_bind]
  | ok cs₁ =>
      rw [ok_bind]
      obtain ⟨rpt', earned, hrpt, hearn, hplt, hcs₁⟩ := updateRewards_ok hu
      obtain ⟨-, -, hrpt_lt⟩ := getRewardPerToken_ok hrpt
      have s1 : getRewardPerToken cs₁ h vp.total = .ok rpt' := by
        have hlu : cs₁.lastUpdateBlock = getLastTimeRewardApplicable cs₁.rewardConfig h := by
          rw [hcs₁]
        have hlt : cs₁.rewardPerToken < uint256Bound := by
          rw [hcs₁]; exact hrpt_lt
        have hres := @getRewardPerToken_noop cs₁ h vp.total hlu hlt
        rw [hcs₁] at hres ⊢
        exact hres
      have s2 : getRewardsEarned cs₁ addr rpt' (vp.power addr) = .ok 0 := by
        apply getRewardsEarned_noop
        rw [hcs₁]
        exact Function.update_same addr rpt' cs.userRewardPerToken
      have s3 : checkedAdd128 ((cs₁.pendingRewards addr).getD 0) 0
          = .ok ((cs.pendingRewards addr).getD 0 + earned) := by
        have hp : (cs₁.pendingRewards addr).getD 0
            = (cs.pendingRewards addr).getD 0 + earned := by
          rw [hcs₁]
          simp [Function.update]
        unfold checkedAdd128
        rw [hp, Nat.add_zero, if_pos hplt]
        rfl
      show (getRewardPerToken cs₁ h vp.total >>= fun rewardPerToken =>
        getRewardsEarned cs₁ addr rewardPerToken (vp.power addr) >>= fun earned =>
        checkedAdd128 ((cs₁.pendingRewards addr).getD 0) earned >>= fun newPending =>
        pure { cs₁ with
          rewardPerToken := rewardPerToken
          pendingRewards := Function.update cs₁.pendingRewards addr (some newPending)
          userRewardPerToken := Function.update cs₁.userRewardPerToken addr rewardPerToken
          lastUpdateBlock := getLastTimeRewardApplicable cs₁.rewardConfig h }) = .ok cs₁
      rw [s1, ok_bind, s2, ok_bind, s3, ok_bind]
      show Except.ok _ = Except.ok cs₁
      rw [Except.ok.injEq, hcs₁]
      ext u
      · rfl
      · rfl
      · rfl
      · rfl
      · rfl
      · by_cases hua : u = addr <;> simp [Function.update, hua]
      · by_cases hua : u = addr <;> simp [Function.update, hua]

lemma mapError_ok {ε ε' α : Type} {x : Except ε α} {f : ε → ε'} {a : α}
    (h : x = .ok a) : x.mapError f = .ok a := by
  rw [h]
  rfl

/-- Full behaviour of `execute_claim` relative to the reconciled state: it
fails with `NoRewardsClaimable` exactly when the reconciled pending amount is
zero, and otherwise zeroes the ledger entry and emits a transfer of exactly
the reconciled amount in the configured reward denom. -/
lemma executeClaim_spec (cs : ContractState) (h : Nat) (vp : VP) (sender : Addr)
    (cs₁ : ContractState) (hupd : updateRewards cs h vp sender = .ok cs₁) :
    (executeClaim cs h vp sender = .error .noRewardsClaimable ↔
      cs₁.pendingRewards sender = some 0) ∧
    (∀ r, cs₁.pendingRewards sender = some r → r ≠ 0 →
      executeClaim cs h vp sender = .ok
        ({ cs₁ with
            pendingRewards := Function.update cs₁.pendingRewards sender (some 0) },
         r, getTransferMsg sender r cs.config.rewardToken)) := by
  obtain ⟨rpt', earned, hrpt, hearn, hplt, hcs₁⟩ := updateRewards_ok hupd
  have hpend : cs₁.pendingRewards sender
      = some ((cs.pendingRewards sender).getD 0 + earned) := by
    rw [hcs₁]
    exact Function.update_same sender _ cs.pendingRewards
  have hclaim : executeClaim cs h vp sender =
      (if (cs.pendingRewards sender).getD 0 + earned = 0 then
        throw ContractError.noRewardsClaimable
      else
        pure ({ cs₁ with
            pendingRewards := Function.update cs₁.pendingRewards sender (some 0) },
          (cs.pendingRewards sender).getD 0 + earned,
          getTransferMsg sender ((cs.pendingRewards sender).getD 0 + earned)
            cs.config.rewardToken)) := by
    unfold executeClaim
    rw [mapError_ok hupd, ok_bind, hpend]
    rfl
  constructor
  · constructor
    · intro herr
      rw [hclaim] at herr
      by_cases h0 : (cs.pendingRewards sender).getD 0 + earned = 0
      · rw [hpend, h0]
      · rw [if_neg h0] at herr
        exact absurd herr (by simp [Pure.pure, Except.pure])
    · intro hzero
      rw [hpend] at hzero
      have h0 : (cs.pendingRewards sender).getD 0 + earned = 0 := by
        simpa using hzero
      rw [hclaim, if_pos h0]
      rfl
  · intro r hr hrne
    rw [hpend] at hr
    have hre : (cs.pendingRewards sender).getD 0 + earned = r := by
      have := hr.symm
      simpa using this.symm
    rw [hclaim, hre, if_neg hrne]
    rfl

/-- C3: claim semantics.  Whenever reconciliation of the claimant succeeds,
`execute_claim` fails with `NoRewardsClaimable` if and only if the claimant's
reconciled pending amount is exactly zero (which also covers a claimant who
never interacted, whose reconciled entry is zero), and otherwise it zeroes the
claimant's pending entry and returns a transfer instruction for exactly the
reconciled amount in the configured reward denom.  An error returns no
successor state, so storage is untouched on failure. -/
theorem c3_claim_semantics (cs : ContractState) (h : Nat) (vp : VP) (sender : Addr)
    (cs₁ : ContractState) (hupd : updateRewards cs h vp sender = .ok cs₁) :
    (executeClaim cs h vp sender = .error .noRewardsClaimable ↔
      cs₁.pendingRewards sender = some 0) ∧
    (∀ r, cs₁.pendingRewards sender = some r → r ≠ 0 →
      executeClaim cs h vp sender = .ok
        ({ cs₁ with
            pendingRewards := Function.update cs₁.pendingRewards sender (some 0) },
         r, getTransferMsg sender r cs.config.rewardToken)) :=
  executeClaim_spec cs h vp sender cs₁ hupd

/-- Reconciled state of staker 1 of the concrete trace at `period_finish`. -/
def c3State₁ : ContractState :=
  match updateRewards c1StateF 2 (oracle c1U c1Pow) 1 with
  | .ok c => c
  | .error _ => c1StateF

theorem c3_claim_semantics_witness :
    executeClaim c1StateF 2 (oracle c1U c1Pow) 1
      = .ok (c1StateC, 2, CosmosMsg.bankSend 1 2 "utest") := by
  have hres := (c3_claim_semantics c1StateF 2 (oracle c1U c1Pow) 1 c3State₁ rfl).2
    2 rfl (by decide)
  exact hres.trans rfl

/-- Inversion of a successful `queryPendingRewards`. -/
lemma queryPendingRewards_ok_inv {cs : ContractState} {h : Nat} {vp : VP}
    {addr : Addr} {resp : PendingRewardsResponse}
    (hq : queryPendingRewards cs h vp addr = .ok resp) :
    ∃ rpt' earned, getRewardPerToken cs h vp.total = .ok rpt' ∧
      getRewardsEarned cs addr rpt' (vp.power addr) = .ok earned ∧
      earned + (cs.pendingRewards addr).getD 0 < uint128Bound ∧
      resp = ⟨addr, earned + (cs.pendingRewards addr).getD 0,
              cs.config.rewardToken, cs.lastUpdateBlock⟩ := by
  unfold queryPendingRewards at hq
  rcases bind_ok_inv hq with ⟨rpt', hrpt, h2⟩
  rcases bind_ok_inv h2 with ⟨earned, hearn, h3⟩
  rcases bind_ok_inv h3 with ⟨pending, hadd, hfin⟩
  rcases checkedAdd128_ok hadd with ⟨hlt, hp⟩
  have hresp := pure_ok_inv hfin
  subst hp
  exact ⟨rpt', earned, hrpt, hearn, hlt, hresp.symm⟩

/-- Forward construction of a successful `updateRewards` from its pieces. -/
lemma updateRewards_build {cs : ContractState} {h : Nat} {vp : VP} {addr : Addr}
    {rpt' earned : Nat}
    (hrpt : getRewardPerToken cs h vp.total = .ok rpt')
    (hearn : getRewardsEarned cs addr rpt' (vp.power addr) = .ok earned)
    (hlt : (cs.pendingRewards addr).getD 0 + earned < uint128Bound) :
    updateRewards cs h vp addr = .ok { cs with
      rewardPerToken := rpt'
      pendingRewards := Function.update cs.pendingRewards addr
        (some ((cs.pendingRewards addr).getD 0 + earned))
      userRewardPerToken := Function.update cs.userRewardPerToken addr rpt'
      lastUpdateBlock := getLastTimeRewardApplicable cs.rewardConfig h } := by
  unfold updateRewards
  rw [hrpt, ok_bind, hearn, ok_bind]
  have hadd : checkedAdd128 ((cs.pendingRewards addr).getD 0) earned
      = .ok ((cs.pendingRewards addr).getD 0 + earned) := by
    unfold checkedAdd128
    rw [if_pos hlt]
    rfl
  rw [hadd, ok_bind]
  rfl

/-- C5: query/claim agreement.  `query_pending_rewards` mutates no storage (in
the embedding it is a pure function of the state returning only a response),
and whenever it succeeds, the `pending_rewards` amount it reports equals
exactly the amount a `Claim` executed by the same address at the same block
would transfer; it reports zero exactly when that `Claim` would fail with
`NoRewardsClaimable`. -/
theorem c5_query_claim_agreement (cs : ContractState) (h : Nat) (vp : VP)
    (addr : Addr) (resp : PendingRewardsResponse)
    (hq : queryPendingRewards cs h vp addr = .ok resp) :
    (resp.pendingRewards = 0 →
      executeClaim cs h vp addr = .error .noRewardsClaimable) ∧
    (resp.pendingRewards ≠ 0 → ∃ cs',
      executeClaim cs h vp addr = .ok (cs', resp.pendingRewards,
        getTransferMsg addr resp.pendingRewards cs.config.rewardToken)) := by
  obtain ⟨rpt', earned, hrpt, hearn, hlt, hresp⟩ := queryPendingRewards_ok_inv hq
  have hlt' : (cs.pendingRewards addr).getD 0 + earned < uint128Bound := by omega
  have hupd := updateRewards_build hrpt hearn hlt'
  have hspec := executeClaim_spec cs h vp addr _ hupd
  have hpend : ({ cs with
      rewardPerToken := rpt'
      pendingRewards := Function.update cs.pendingRewards addr
        (some ((cs.pendingRewards addr).getD 0 + earned))
      userRewardPerToken := Function.update cs.userRewardPerToken addr rpt'
      lastUpdateBlock := getLastTimeRewardApplicable cs.rewardConfig h }
        : ContractState).pendingRewards addr
      = some ((cs.pendingRewards addr).getD 0 + earned) :=
    Function.update_same addr _ cs.pendingRewards
  have hamt : resp.pendingRewards = (cs.pendingRewards addr).getD 0 + earned := by
    rw [hresp]
    exact Nat.add_comm earned ((cs.pendingRewards addr).getD 0)
  constructor
  · intro h0
    apply hspec.1.mpr
    rw [hpend, ← hamt, h0]
  · intro hne
    exact ⟨_, hspec.2 resp.pendingRewards (by rw [hpend, hamt]) hne⟩

theorem c5_query_claim_agreement_witness :
    (queryPendingRewards c1StateF 2 (oracle c1U c1Pow) 1
      = .ok ⟨1, 2, .native "utest", 0⟩) ∧
    ∃ cs', executeClaim c1StateF 2 (oracle c1U c1Pow) 1
      = .ok (cs', 2, getTransferMsg 1 2 c1StateF.config.rewardToken) :=
  ⟨rfl, (c5_query_claim_agreement c1StateF 2 (oracle c1U c1Pow) 1
    ⟨1, 2, .native "utest", 0⟩ rfl).2 (by decide)⟩

/-- Voting powers of the end-to-end scenario of the source test fixture:
stakers 1, 2, 3 hold 100, 50 and 50; the owner (address 0) stakes nothing. -/
def c2Pow : Addr → Nat := fun u =>
  if u = 1 then 100 else if u = 2 then 50 else if u = 3 then 50 else 0

/-- Oracle of the scenario: total power 200. -/
def c2Vp : VP := ⟨200, c2Pow⟩

/-- Freshly instantiated contract with `reward_duration = 100000`. -/
def c2State0 : ContractState :=
  { config := ⟨10, none, .native "utest"⟩
    owner := some 0
    rewardConfig := ⟨0, 0, 100000⟩
    lastUpdateBlock := 0
    rewardPerToken := 0
    userRewardPerToken := fun _ => 0
    pendingRewards := fun _ => none }

/-- State after the owner funds 100,000,000 at block 1000:
`reward_rate = 1000`, `period_finish = 101000`. -/
def c2StateF : ContractState :=
  { config := ⟨10, none, .native "utest"⟩
    owner := some 0
    rewardConfig := ⟨101000, 1000, 100000⟩
    lastUpdateBlock := 1000
    rewardPerToken := 0
    userRewardPerToken := Function.update (fun _ => 0) 0 0
    pendingRewards := Function.update (fun _ => none) 0 (some 0) }

set_option maxRecDepth 4000 in
/-- Accrual of the scenario: any address with weight `w` and an untouched
ledger reads pending rewards of exactly `w * 5` per elapsed block. -/
lemma c2_query (a w h : Nat) (hw : c2Vp.power a = w) (hwle : w ≤ 100)
    (h1 : 1000 ≤ h) (h2 : h ≤ 101000)
    (husr : c2StateF.userRewardPerToken a = 0)
    (hpnd : (c2StateF.pendingRewards a).getD 0 = 0) :
    queryPendingRewards c2StateF h c2Vp a
      = .ok ⟨a, w * 5 * (h - 1000), .native "utest", 1000⟩ := by
  have hE : h - 1000 ≤ 100000 := by omega
  have hltra : getLastTimeRewardApplicable c2StateF.rewardConfig h = h :=
    min_eq_left h2
  have hrpt : getRewardPerToken c2StateF h c2Vp.total
      = .ok (5 * (h - 1000) * scaleFactor) := by
    unfold getRewardPerToken
    rw [if_neg (by decide : ¬(c2Vp.total = 0))]
    have hsub : checkedSubU64 (getLastTimeRewardApplicable c2StateF.rewardConfig h)
        c2StateF.lastUpdateBlock = .ok (h - 1000) := by
      unfold checkedSubU64
      rw [hltra]
      rw [if_pos]
      · rfl
      · exact h1
    rw [hsub, ok_bind]
    have hmul : checkedMul256 (c2StateF.rewardConfig.rewardRate * (h - 1000))
        scaleFactor = .ok (1000 * (h - 1000) * scaleFactor) := by
      unfold checkedMul256
      rw [if_pos]
      · rfl
      · calc 1000 * (h - 1000) * scaleFactor
            ≤ 1000 * 100000 * scaleFactor := by
              have := Nat.mul_le_mul_right scaleFactor
                (Nat.mul_le_mul_left 1000 hE)
              simpa using this
          _ < uint256Bound := by decide
    rw [hmul, ok_bind]
    have hdivv : checkedDiv256 (1000 * (h - 1000) * scaleFactor) c2Vp.total
        = .ok (5 * (h - 1000) * scaleFactor) := by
      unfold checkedDiv256
      rw [if_neg (by decide : ¬(c2Vp.total = 0))]
      have he : 1000 * (h - 1000) * scaleFactor
          = 200 * (5 * (h - 1000) * scaleFactor) := by ring
      rw [show c2Vp.total = 200 from rfl, he,
        Nat.mul_div_cancel_left _ (by norm_num : (0:Nat) < 200)]
      rfl
    rw [hdivv, ok_bind]
    unfold checkedAdd256
    rw [show c2StateF.rewardPerToken = 0 from rfl]
    rw [if_pos]
    · rw [Nat.zero_add]
      rfl
    · rw [Nat.zero_add]
      calc 5 * (h - 1000) * scaleFactor
          ≤ 5 * 100000 * scaleFactor := by
            have := Nat.mul_le_mul_right scaleFactor
              (Nat.mul_le_mul_left 5 hE)
            simpa using this
        _ < uint256Bound := by decide
  have hearn : getRewardsEarned c2StateF a (5 * (h - 1000) * scaleFactor)
      (c2Vp.power a) = .ok (w * 5 * (h - 1000)) := by
    unfold getRewardsEarned
    have hsub : checkedSub256 (5 * (h - 1000) * scaleFactor)
        (c2StateF.userRewardPerToken a) = .ok (5 * (h - 1000) * scaleFactor) := by
      unfold checkedSub256
      rw [husr, if_pos (Nat.zero_le _), Nat.sub_zero]
      rfl
    rw [hsub, ok_bind]
    have hmul : checkedMul256 (c2Vp.power a) (5 * (h - 1000) * scaleFactor)
        = .ok (w * 5 * (h - 1000) * scaleFactor) := by
      unfold checkedMul256
      rw [hw]
      rw [if_pos]
      · show Except.ok (w * (5 * (h - 1000) * scaleFactor))
            = Except.ok (w * 5 * (h - 1000) * scaleFactor)
        rw [Except.ok.injEq]
        ring
      · calc w * (5 * (h - 1000) * scaleFactor)
            ≤ 100 * (5 * 100000 * scaleFactor) := by
              apply Nat.mul_le_mul hwle
              exact Nat.mul_le_mul_right scaleFactor (Nat.mul_le_mul_left 5 hE)
          _ < uint256Bound := by decide
    rw [hmul, ok_bind]
    have hdivv : checkedDiv256 (w * 5 * (h - 1000) * scaleFactor) scaleFactor
        = .ok (w * 5 * (h - 1000)) := by
      unfold checkedDiv256
      rw [if_neg scaleFactor_ne_zero, Nat.mul_div_cancel _ (by decide : 0 < scaleFactor)]
      rfl
    rw [hdivv, ok_bind]
    unfold tryIntoU128
    rw [if_pos]
    · rfl
    · calc w * 5 * (h - 1000)
          ≤ 100 * 5 * 100000 := by
            apply Nat.mul_le_mul
            · exact Nat.mul_le_mul_right 5 hwle
            · exact hE
        _ < uint128Bound := by decide
  unfold queryPendingRewards
  rw [hrpt, ok_bind, hearn, ok_bind, hpnd]
  have hadd : checkedAdd128 (w * 5 * (h - 1000)) 0 = .ok (w * 5 * (h - 1000)) := by
    unfold checkedAdd128
    rw [Nat.add_zero, if_pos]
    · rfl
    · calc w * 5 * (h - 1000)
          ≤ 100 * 5 * 100000 := by
            apply Nat.mul_le_mul
            · exact Nat.mul_le_mul_right 5 hwle
            · exact hE
        _ < uint128Bound := by decide
  dsimp only
  rw [hadd, ok_bind]
  rfl

/-- C2: end-to-end accrual arithmetic of the source test fixture.  With three
stakers of voting power 100, 50 and 50 and `reward_duration = 100000`,
funding 100,000,000 tokens at block 1000 sets `reward_rate` to 1000 per block
and `period_finish` to 101000, and at every subsequent block `h` up to
`period_finish` the pending rewards of staker 1 are `500 * (h - 1000)` and
those of stakers 2 and 3 are `250 * (h - 1000)` each: 500 and 250 per elapsed
block, exactly proportional to the weights. -/
theorem c2_end_to_end :
    executeFund c2State0 1000 c2Vp 0 100000000 = .ok c2StateF ∧
    c2StateF.rewardConfig.rewardRate = 1000 ∧
    c2StateF.rewardConfig.periodFinish = 101000 ∧
    ∀ h, 1000 ≤ h → h ≤ 101000 →
      (queryPendingRewards c2StateF h c2Vp 1).map PendingRewardsResponse.pendingRewards
        = .ok (500 * (h - 1000)) ∧
      (queryPendingRewards c2StateF h c2Vp 2).map PendingRewardsResponse.pendingRewards
        = .ok (250 * (h - 1000)) ∧
      (queryPendingRewards c2StateF h c2Vp 3).map PendingRewardsResponse.pendingRewards
        = .ok (250 * (h - 1000)) := by
  refine ⟨rfl, rfl, rfl, ?_⟩
  intro h h1 h2
  refine ⟨?_, ?_, ?_⟩
  · have hq := c2_query 1 100 h rfl (by norm_num) h1 h2 (by decide) (by decide)
    rw [hq]
    show Except.ok (100 * 5 * (h - 1000)) = Except.ok (500 * (h - 1000))
    norm_num
  · have hq := c2_query 2 50 h rfl (by norm_num) h1 h2 (by decide) (by decide)
    rw [hq]
    show Except.ok (50 * 5 * (h - 1000)) = Except.ok (250 * (h - 1000))
    norm_num
  · have hq := c2_query 3 50 h rfl (by norm_num) h1 h2 (by decide) (by decide)
    rw [hq]
    show Except.ok (50 * 5 * (h - 1000)) = Except.ok (250 * (h - 1000))
    norm_num

theorem c2_end_to_end_witness :
    (queryPendingRewards c2StateF 1001 c2Vp 1).map PendingRewardsResponse.pendingRewards
      = .ok 500 ∧
    (queryPendingRewards c2StateF 1001 c2Vp 2).map PendingRewardsResponse.pendingRewards
      = .ok 250 ∧
    (queryPendingRewards c2StateF 1001 c2Vp 3).map PendingRewardsResponse.pendingRewards
      = .ok 250 := by
  have hres := c2_end_to_end.2.2.2 1001 (by norm_num) (by norm_num)
  refine ⟨?_, ?_, ?_⟩
  · simpa using hres.1
  · simpa using hres.2.1
  · simpa using hres.2.2

/-- A zero-power participant earns nothing (provided the subtraction does not
underflow). -/
lemma getRewardsEarned_zero_power {cs : ContractState} {addr : Addr} {rpt : Nat}
    (hle : cs.userRewardPerToken addr ≤ rpt) :
    getRewardsEarned cs addr rpt 0 = .ok 0 := by
  unfold getRewardsEarned
  have hsub : checkedSub256 rpt (cs.userRewardPerToken addr)
      = .ok (rpt - cs.userRewardPerToken addr) := by
    unfold checkedSub256
    rw [if_pos hle]
    rfl
  rw [hsub, ok_bind]
  have hmul : checkedMul256 0 (rpt - cs.userRewardPerToken addr) = .ok 0 := by
    unfold checkedMul256
    rw [Nat.zero_mul, if_pos uint256Bound_pos]
    rfl
  rw [hmul, ok_bind]
  have hdiv : checkedDiv256 0 scaleFactor = .ok 0 := by
    unfold checkedDiv256
    rw [if_neg scaleFactor_ne_zero, Nat.zero_div]
    rfl
  rw [hdiv, ok_bind]
  unfold tryIntoU128
  rw [if_pos uint128Bound_pos]
  rfl

/-- C6: zero-total-power safety.  When the voting-power oracle reports total
power zero, `get_reward_per_token` takes the guarded branch and returns the
stored accumulator with a zero delta instead of dividing by zero; and funding
while total power is zero succeeds (no error is caused by the zero total
stake), given only the zero-power-unrelated preconditions of `execute_fund`:
the sender owns the contract, the previous period is over, the duration is
positive and at most the amount (so the rate is at least one), and the stored
values are in range. -/
theorem c6_zero_total_power :
    (∀ (cs : ContractState) (h : Nat), cs.rewardPerToken < uint256Bound →
      getRewardPerToken cs h 0 = .ok cs.rewardPerToken) ∧
    (∀ (cs : ContractState) (h : Nat) (vp : VP) (sender : Addr) (amount : Nat),
      vp.total = 0 → vp.power sender = 0 →
      cs.owner = some sender →
      cs.rewardPerToken < uint256Bound →
      cs.userRewardPerToken sender ≤ cs.rewardPerToken →
      (cs.pendingRewards sender).getD 0 < uint128Bound →
      cs.rewardConfig.periodFinish ≤ h →
      h + cs.rewardConfig.rewardDuration < uint64Bound →
      cs.rewardConfig.rewardDuration ≠ 0 →
      cs.rewardConfig.rewardDuration ≤ amount →
      ∃ cs', executeFund cs h vp sender amount = .ok cs') := by
  constructor
  · intro cs h hlt
    exact getRewardPerToken_zero_total hlt
  · intro cs h vp sender amount ht0 hp0 hown hlt husr hpnd hfin h64 hdur hda
    have hrpt : getRewardPerToken cs h vp.total = .ok cs.rewardPerToken := by
      rw [ht0]
      exact getRewardPerToken_zero_total hlt
    have hearn : getRewardsEarned cs sender cs.rewardPerToken (vp.power sender)
        = .ok 0 := by
      rw [hp0]
      exact getRewardsEarned_zero_power husr
    have hupd := updateRewards_build hrpt hearn (by omega)
    have hfund : executeFund cs h vp sender amount = .ok
        { config := cs.config
          owner := cs.owner
          rewardConfig := ⟨h + cs.rewardConfig.rewardDuration,
            amount / cs.rewardConfig.rewardDuration, cs.rewardConfig.rewardDuration⟩
          lastUpdateBlock := h
          rewardPerToken := cs.rewardPerToken
          userRewardPerToken := Function.update cs.userRewardPerToken sender
            cs.rewardPerToken
          pendingRewards := Function.update cs.pendingRewards sender
            (some ((cs.pendingRewards sender).getD 0 + 0)) } := by
      unfold executeFund
      have hao : assertOwner cs sender = .ok () := by
        unfold assertOwner
        rw [hown]
        simp [Pure.pure, Except.pure]
      rw [hao, ok_bind, mapError_ok hupd, ok_bind]
      dsimp only
      rw [if_neg (Nat.not_lt.mpr hfin), if_neg (Nat.not_le.mpr h64), if_neg hdur,
        if_neg (Nat.pos_iff_ne_zero.mp (Nat.div_pos hda (Nat.pos_of_ne_zero hdur)))]
      rfl
    exact ⟨_, hfund⟩

theorem c6_zero_total_power_witness :
    getRewardPerToken c1State0 7 0 = .ok c1State0.rewardPerToken ∧
    ∃ cs', executeFund c1State0 5 ⟨0, fun _ => 0⟩ 0 4 = .ok cs' :=
  ⟨c6_zero_total_power.1 c1State0 7 (by decide),
   c6_zero_total_power.2 c1State0 5 ⟨0, fun _ => 0⟩ 0 4 rfl rfl rfl (by decide)
     (by decide) (by decide) (by decide) (by decide) (by decide) (by decide)⟩

/-- General form of the membership-changed no-op: for any authorized sender
the handler returns with storage untouched, because the mapped iterator over
`msg.diffs` (contract.rs lines 213-216) is never consumed. -/
lemma executeMembershipChanged_spec (cs : ContractState) (h : Nat) (vp : VP)
    (info : MessageInfo) (msg : MemberChangedHookMsg)
    (hchk : checkHookCaller cs info = .ok ()) :
    executeMembershipChanged cs h vp info msg = .ok cs := by
  unfold executeMembershipChanged
  rw [hchk, ok_bind]
  rfl

/-- Reconciled state of staker 1 one block after the fund of the scenario. -/
def c7State₁ : ContractState :=
  match updateRewards c2StateF 1001 c2Vp 1 with
  | .ok c => c
  | .error _ => c2StateF

/-- C7 (code bug): an authorized membership-changed notification performs no
reconciliation at all.  At block 1001 of the funded scenario, a
membership-changed message whose diffs list staker 1 leaves the contract
state exactly as it was (staker 1's ledger entry stays absent), even though
running `update_rewards` for staker 1 at that block would bank 500 pending
tokens.  The source builds `msg.diffs.iter().map(|member| ...)` and discards
the lazy iterator with `let _ = ...`, so the per-member closures never run. -/
theorem c7_membership_changed_noop :
    executeMembershipChanged c2StateF 1001 c2Vp ⟨10, []⟩
      ⟨[⟨"addr0001", some 100, some 50⟩]⟩ = .ok c2StateF ∧
    updateRewards c2StateF 1001 c2Vp 1 = .ok c7State₁ ∧
    c7State₁.pendingRewards 1 = some 500 ∧
    c2StateF.pendingRewards 1 = none :=
  ⟨rfl, rfl, rfl, rfl⟩

/-- Characterization of `must_pay` success: exactly one attached coin, of the
expected denom, with a positive amount. -/
lemma mustPay_ok_iff (info : MessageInfo) (d : String) (amt : Nat) :
    mustPay info d = .ok amt ↔ info.funds = [⟨d, amt⟩] ∧ amt ≠ 0 := by
  constructor
  · intro hok
    unfold mustPay at hok
    rcases bind_ok_inv hok with ⟨c, hone, hden⟩
    have hca : c.denom = d ∧ c.amount = amt := by
      by_cases hd : c.denom = d
      · rw [if_pos hd] at hden
        exact ⟨hd, pure_ok_inv hden⟩
      · rw [if_neg hd] at hden
        simp [throw, throwThe, MonadExceptOf.throw] at hden
    unfold oneCoin at hone
    match hf : info.funds with
    | [] =>
        rw [hf] at hone
        simp [throw, throwThe, MonadExceptOf.throw] at hone
    | [c'] =>
        rw [hf] at hone
        have hone' : (if c'.amount = 0 then throw ContractError.invalidFunds
            else pure c' : Except ContractError Coin) = .ok c := hone
        by_cases hz : c'.amount = 0
        · rw [if_pos hz] at hone'
          simp [throw, throwThe, MonadExceptOf.throw] at hone'
        · rw [if_neg hz] at hone'
          have hc : c' = c := pure_ok_inv hone'
          subst hc
          refine ⟨?_, ?_⟩
          · rw [← hca.1, ← hca.2]
          · rw [← hca.2]
            exact hz
    | c' :: c'' :: rest =>
        rw [hf] at hone
        simp [throw, throwThe, MonadExceptOf.throw] at hone
  · rintro ⟨hf, hz⟩
    unfold mustPay oneCoin
    rw [hf]
    have hone : (if (Coin.mk d amt).amount = 0 then throw ContractError.invalidFunds
        else pure (Coin.mk d amt) : Except ContractError Coin)
          = .ok (Coin.mk d amt) := by
      rw [if_neg hz]
      rfl
    show ((if (Coin.mk d amt).amount = 0 then throw ContractError.invalidFunds
        else pure (Coin.mk d amt) : Except ContractError Coin) >>= fun c =>
      if c.denom = d then pure c.amount else throw ContractError.invalidFunds)
        = .ok amt
    rw [hone, ok_bind, if_pos rfl]
    rfl

/-- `must_pay` failures (wrong shape or denom) all surface as `InvalidFunds`. -/
lemma mustPay_error_shape {info : MessageInfo} {d : String} {e : ContractError}
    (herr : mustPay info d = .error e) : e = .invalidFunds := by
  unfold mustPay oneCoin at herr
  match hf : info.funds with
  | [] =>
      rw [hf] at herr
      simp [throw, throwThe, MonadExceptOf.throw, Bind.bind, Except.bind] at herr
      exact herr.symm
  | [c'] =>
      rw [hf] at herr
      have herr' : ((if c'.amount = 0 then throw ContractError.invalidFunds
          else pure c' : Except ContractError Coin) >>= fun c =>
        if c.denom = d then pure c.amount else throw ContractError.invalidFunds)
          = .error e := herr
      by_cases hz : c'.amount = 0
      · rw [if_pos hz] at herr'
        simp [throw, throwThe, MonadExceptOf.throw, Bind.bind, Except.bind] at herr'
        exact herr'.symm
      · rw [if_neg hz] at herr'
        rw [show ((pure c' : Except ContractError Coin) >>= fun c =>
          if c.denom = d then pure c.amount else throw ContractError.invalidFunds)
            = if c'.denom = d then pure c'.amount else throw ContractError.invalidFunds
          from rfl] at herr'
        by_cases hd : c'.denom = d
        · rw [if_pos hd] at herr'
          simp [Pure.pure, Except.pure] at herr'
        · rw [if_neg hd] at herr'
          simp [throw, throwThe, MonadExceptOf.throw] at herr'
          exact herr'.symm
  | c' :: c'' :: rest =>
      rw [hf] at herr
      simp [throw, throwThe, MonadExceptOf.throw, Bind.bind, Except.bind] at herr
      exact herr.symm

/-- C8 (amended): native funding is owner-only, not permissionless.  For a
distribution configured with a native reward denom: a payment of exactly one
coin of that denom with a positive amount is forwarded to `execute_fund` with
the attached amount — whose first step asserts that the sender is the
contract owner, so a well-formed payment from any non-owner is rejected with
the ownership NotOwner error — while any payment whose shape is wrong (no
coin, several coins, zero amount, or a mismatched denom) is rejected with
`InvalidFunds`. -/
theorem c8_native_fund_permissioning :
    (∀ (cs : ContractState) (h : Nat) (info : MessageInfo) (vp : VP)
        (d : String) (amt : Nat),
      cs.config.rewardToken = .native d →
      info.funds = [⟨d, amt⟩] → amt ≠ 0 →
      executeFundNative cs h info vp = executeFund cs h vp info.sender amt) ∧
    (∀ (cs : ContractState) (h : Nat) (info : MessageInfo) (vp : VP) (d : String),
      cs.config.rewardToken = .native d →
      (∀ amt, ¬(info.funds = [⟨d, amt⟩] ∧ amt ≠ 0)) →
      executeFundNative cs h info vp = .error .invalidFunds) ∧
    (∀ (cs : ContractState) (h : Nat) (info : MessageInfo) (vp : VP)
        (d : String) (amt : Nat) (o : Addr),
      cs.config.rewardToken = .native d →
      info.funds = [⟨d, amt⟩] → amt ≠ 0 →
      cs.owner = some o → info.sender ≠ o →
      executeFundNative cs h info vp = .error .ownershipNotOwner) := by
  have hfwd : ∀ (cs : ContractState) (h : Nat) (info : MessageInfo) (vp : VP)
      (d : String) (amt : Nat),
      cs.config.rewardToken = .native d →
      info.funds = [⟨d, amt⟩] → amt ≠ 0 →
      executeFundNative cs h info vp = executeFund cs h vp info.sender amt := by
    intro cs h info vp d amt htok hf hz
    unfold executeFundNative
    rw [htok]
    have hmp : mustPay info d = .ok amt := (mustPay_ok_iff info d amt).mpr ⟨hf, hz⟩
    show (mustPay info d >>= fun amount => executeFund cs h vp info.sender amount)
        = executeFund cs h vp info.sender amt
    rw [hmp, ok_bind]
  refine ⟨hfwd, ?_, ?_⟩
  · intro cs h info vp d htok hbad
    unfold executeFundNative
    rw [htok]
    show (mustPay info d >>= fun amount => executeFund cs h vp info.sender amount)
        = .error .invalidFunds
    cases hmp : mustPay info d with
    | ok amt =>
        exact absurd ((mustPay_ok_iff info d amt).mp hmp) (hbad amt)
    | error e =>
        rw [error_bind]
        rw [mustPay_error_shape hmp]
  · intro cs h info vp d amt o htok hf hz hown hne
    rw [hfwd cs h info vp d amt htok hf hz]
    unfold executeFund
    have hao : assertOwner cs info.sender = .error .ownershipNotOwner := by
      unfold assertOwner
      rw [hown]
      show (if info.sender = o then pure () else throw ContractError.ownershipNotOwner
        : Except ContractError Unit) = .error .ownershipNotOwner
      rw [if_neg hne]
      rfl
    rw [hao, error_bind]

theorem c8_native_fund_permissioning_witness :
    executeFundNative c1State0 0 ⟨0, [⟨"utest", 3⟩]⟩ (oracle c1U c1Pow)
      = executeFund c1State0 0 (oracle c1U c1Pow) 0 3 ∧
    executeFundNative c1State0 0 ⟨0, [⟨"utest", 1⟩, ⟨"utest", 1⟩]⟩ (oracle c1U c1Pow)
      = .error .invalidFunds ∧
    executeFundNative c1State0 0 ⟨1, [⟨"utest", 100⟩]⟩ (oracle c1U c1Pow)
      = .error .ownershipNotOwner :=
  ⟨c8_native_fund_permissioning.1 c1State0 0 ⟨0, [⟨"utest", 3⟩]⟩ (oracle c1U c1Pow)
      "utest" 3 rfl rfl (by decide),
   c8_native_fund_permissioning.2.1 c1State0 0 ⟨0, [⟨"utest", 1⟩, ⟨"utest", 1⟩]⟩
      (oracle c1U c1Pow) "utest" rfl (by intro amt hcontra; simp at hcontra),
   c8_native_fund_permissioning.2.2 c1State0 0 ⟨1, [⟨"utest", 100⟩]⟩
      (oracle c1U c1Pow) "utest" 100 0 rfl rfl (by decide) rfl (by decide)⟩

/-- C8 counterexample to the claim as stated: a sender who is not the owner,
attaching exactly one positive coin of the configured native denom, cannot
fund — `execute_fund` asserts ownership first and the call fails with the
ownership NotOwner error, so native funding is not permissionless. -/
theorem c8_permissionless_counterexample :
    c1State0.config.rewardToken = Denom.native "utest" ∧
    c1State0.owner = some 0 ∧
    (1 : Addr) ≠ 0 ∧
    executeFundNative c1State0 0 ⟨1, [⟨"utest", 100⟩]⟩ (oracle c1U c1Pow)
      = .error .ownershipNotOwner :=
  ⟨rfl, rfl, by decide, rfl⟩

/-- The one sender `check_hook_caller` accepts: the designated `hook_caller`
when configured, otherwise the voting-power contract. -/
def authorizedHookSender (cs : ContractState) : Addr :=
  cs.config.hookCaller.getD cs.config.vpContract

/-- C9: hook sender authorization.  A stake-changed, NFT-stake-changed or
membership-changed notification passes the sender check exactly when its
sender is the authorized sender — the designated `hook_caller` when one is
configured, otherwise the voting-power contract itself — and a notification
from any other sender fails with `InvalidHookSender` (an error carries no
successor state, so storage is untouched). -/
theorem c9_hook_sender_auth (cs : ContractState) (h : Nat) (vp : VP)
    (info : MessageInfo) (smsg : StakeChangedHookMsg)
    (nmsg : NftStakeChangedHookMsg) (mmsg : MemberChangedHookMsg) :
    (checkHookCaller cs info = .ok () ↔ info.sender = authorizedHookSender cs) ∧
    (info.sender ≠ authorizedHookSender cs →
      checkHookCaller cs info = .error .invalidHookSender ∧
      executeStakeChanged cs h vp info smsg = .error .invalidHookSender ∧
      executeNftStakeChanged cs h vp info nmsg = .error .invalidHookSender ∧
      executeMembershipChanged cs h vp info mmsg = .error .invalidHookSender) := by
  have hcases : (info.sender = authorizedHookSender cs ∧
        checkHookCaller cs info = .ok ()) ∨
      (info.sender ≠ authorizedHookSender cs ∧
        checkHookCaller cs info = .error .invalidHookSender) := by
    unfold checkHookCaller authorizedHookSender
    cases hc : cs.config.hookCaller with
    | some hookCaller =>
        by_cases hs : info.sender = hookCaller
        · exact Or.inl ⟨hs, by
            show (if info.sender = hookCaller then pure ()
              else throw ContractError.invalidHookSender : Except ContractError Unit)
                = .ok ()
            rw [if_pos hs]
            rfl⟩
        · exact Or.inr ⟨hs, by
            show (if info.sender = hookCaller then pure ()
              else throw ContractError.invalidHookSender : Except ContractError Unit)
                = .error .invalidHookSender
            rw [if_neg hs]
            rfl⟩
    | none =>
        by_cases hs : info.sender = cs.config.vpContract
        · exact Or.inl ⟨hs, by
            show (if info.sender = cs.config.vpContract then pure ()
              else throw ContractError.invalidHookSender : Except ContractError Unit)
                = .ok ()
            rw [if_pos hs]
            rfl⟩
        · exact Or.inr ⟨hs, by
            show (if info.sender = cs.config.vpContract then pure ()
              else throw ContractError.invalidHookSender : Except ContractError Unit)
                = .error .invalidHookSender
            rw [if_neg hs]
            rfl⟩
  constructor
  · constructor
    · intro hok
      rcases hcases with ⟨ha, -⟩ | ⟨-, herr⟩
      · exact ha
      · rw [hok] at herr
        cases herr
    · intro ha
      rcases hcases with ⟨-, hok⟩ | ⟨hne, -⟩
      · exact hok
      · exact absurd ha hne
  · intro hne
    rcases hcases with ⟨ha, -⟩ | ⟨-, herr⟩
    · exact absurd ha hne
    · refine ⟨herr, ?_, ?_, ?_⟩
      · unfold executeStakeChanged
        rw [herr, error_bind]
      · unfold executeNftStakeChanged
        rw [herr, error_bind]
      · unfold executeMembershipChanged
        rw [herr, error_bind]

/-- Contract configured with a designated hook caller (address 7). -/
def c9State : ContractState :=
  { config := ⟨10, some 7, .native "utest"⟩
    owner := some 0
    rewardConfig := ⟨0, 0, 2⟩
    lastUpdateBlock := 0
    rewardPerToken := 0
    userRewardPerToken := fun _ => 0
    pendingRewards := fun _ => none }

theorem c9_hook_sender_auth_witness :
    (checkHookCaller c9State ⟨7, []⟩ = .ok () ↔
      (7 : Addr) = authorizedHookSender c9State) ∧
    executeStakeChanged c9State 1 (oracle c1U c1Pow) ⟨9, []⟩
      (.stake 1 5) = .error .invalidHookSender ∧
    executeNftStakeChanged c9State 1 (oracle c1U c1Pow) ⟨9, []⟩
      (.unstake 1 []) = .error .invalidHookSender ∧
    executeMembershipChanged c9State 1 (oracle c1U c1Pow) ⟨9, []⟩
      ⟨[]⟩ = .error .invalidHookSender := by
  have h1 := (c9_hook_sender_auth c9State 1 (oracle c1U c1Pow) ⟨7, []⟩
    (.stake 1 5) (.unstake 1 []) ⟨[]⟩).1
  have h2 := (c9_hook_sender_auth c9State 1 (oracle c1U c1Pow) ⟨9, []⟩
    (.stake 1 5) (.unstake 1 []) ⟨[]⟩).2 (by decide)
  exact ⟨h1, h2.2.1, h2.2.2.1, h2.2.2.2⟩
